import Mathlib

set_option maxRecDepth 100000

set_option maxHeartbeats 2000000

/-!
Verification of the standalone-artifact bundler (scripts/bundle-single-html.js).

The JavaScript source is shallowly embedded: strings become `List Char`,
the regex/scanner helpers of the source are re-implemented as executable
Lean functions with the same observable behaviour, and the stateful
top-level pipeline becomes a pure function producing an event trace.
-/

namespace Bundle

/-! ## Basic string (List Char) utilities used by the embedding -/

/-- `matchesAt pat s` : does `pat` occur at the head of `s`? -/
def matchesAt : List Char → List Char → Bool
  | [], _ => true
  | _ :: _, [] => false
  | p :: ps, c :: cs => p = c && matchesAt ps cs

/-- Index of the first occurrence of `pat` in `s` (JS `String.indexOf`). -/
def findSub (pat : List Char) : List Char → Option Nat
  | [] => if matchesAt pat [] then some 0 else none
  | c :: rest =>
    if matchesAt pat (c :: rest) then some 0
    else (findSub pat rest).map (fun k => k + 1)

/-- JS `s.indexOf(pat, start)`. -/
def findSubFrom (s pat : List Char) (start : Nat) : Option Nat :=
  (findSub pat (s.drop start)).map (fun k => k + start)

/-- Does `pat` occur anywhere in `s` (JS `String.includes`)? -/
def hasSub (s pat : List Char) : Bool :=
  (findSub pat s).isSome

/-- Number of positions of `s` at which `pat` occurs (0 iff no occurrence). -/
def countOccur (s pat : List Char) : Nat :=
  match s with
  | [] => if matchesAt pat [] then 1 else 0
  | c :: rest => (if matchesAt pat (c :: rest) then 1 else 0) + countOccur rest pat

/-- JS `String.replace` with a plain-string pattern: first occurrence only. -/
def replaceFirst (s pat repl : List Char) : List Char :=
  match findSub pat s with
  | none => s
  | some i => s.take i ++ repl ++ (s.drop i).drop pat.length

/-- Fuel-driven scan of `String.replaceAll`; every step consumes at
least one character of `s`, so `s.length + 1` fuel is exact. -/
def replaceAllGo (pat repl : List Char) : Nat → List Char → List Char
  | 0, s => s
  | fuel + 1, s =>
    match s with
    | [] => []
    | c :: rest =>
      if matchesAt pat (c :: rest) then
        repl ++ replaceAllGo pat repl fuel (rest.drop (pat.length - 1))
      else c :: replaceAllGo pat repl fuel rest

/-- JS `String.replaceAll`: non-overlapping leftmost occurrences, the
replacement text is not rescanned. -/
def replaceAll (pat repl : List Char) (s : List Char) : List Char :=
  if pat = [] then s else replaceAllGo pat repl (s.length + 1) s

/-! ## Decimal numerals (JS `parseInt(·, 10)` and template stringification) -/

/-- Value of a decimal digit character. -/
def decVal (c : Char) : Nat := c.toNat - 48

/-- `[0-9]` (the JS regex class `\d`). -/
def isDigitC (c : Char) : Bool := 48 ≤ c.toNat && c.toNat ≤ 57

/-- `[0-9a-f]` (the id-pattern hex class of the source). -/
def isLowerHex (c : Char) : Bool :=
  (48 ≤ c.toNat && c.toNat ≤ 57) || (97 ≤ c.toNat && c.toNat ≤ 102)

/-- `parseInt(ds, 10)` on a digit string. -/
def parseDec (ds : List Char) : Nat :=
  ds.foldl (fun a c => a * 10 + decVal c) 0

/-- The character for a decimal digit. -/
def digitChar (d : Nat) : Char :=
  ['0', '1', '2', '3', '4', '5', '6', '7', '8', '9'].getD d '0'

theorem decVal_digitChar : ∀ d < 10, decVal (digitChar d) = d := by decide

theorem isDigitC_digitChar : ∀ d < 10, isDigitC (digitChar d) = true := by decide

/-- Auxiliary: decimal digits of `n`, most significant first, onto
`acc`; the fuel dominates the number of divisions by ten. -/
def natDecGo : Nat → Nat → List Char → List Char
  | 0, _, acc => acc
  | _, 0, acc => acc
  | fuel + 1, n + 1, acc =>
    natDecGo fuel ((n + 1) / 10) (digitChar ((n + 1) % 10) :: acc)

/-- Decimal rendering of a natural number (JS number-to-string). -/
def natDec (n : Nat) : List Char :=
  if n = 0 then ['0'] else natDecGo n n []

theorem natDecGo_append (fuel : Nat) :
    ∀ (n : Nat) (acc : List Char),
      natDecGo fuel n acc = natDecGo fuel n [] ++ acc := by
  induction fuel with
  | zero => intro n acc; simp [natDecGo]
  | succ f ih =>
    intro n acc
    match n with
    | 0 => simp [natDecGo]
    | m + 1 =>
      rw [natDecGo, natDecGo]
      rw [ih ((m + 1) / 10) (digitChar ((m + 1) % 10) :: acc),
        ih ((m + 1) / 10) [digitChar ((m + 1) % 10)]]
      simp

theorem parseDec_append (xs ys : List Char) :
    parseDec (xs ++ ys) = ys.foldl (fun a c => a * 10 + decVal c) (parseDec xs) := by
  simp [parseDec, List.foldl_append]

theorem parseDec_natDecGo (fuel : Nat) :
    ∀ n : Nat, n ≤ fuel → parseDec (natDecGo fuel n []) = n := by
  induction fuel with
  | zero =>
    intro n hn
    interval_cases n
    simp [natDecGo, parseDec]
  | succ f ih =>
    intro n hn
    match n with
    | 0 => simp [natDecGo, parseDec]
    | m + 1 =>
      rw [natDecGo, natDecGo_append]
      rw [parseDec_append]
      have hdiv : (m + 1) / 10 ≤ f := by
        have := Nat.div_lt_self (Nat.succ_pos m) (show 1 < 10 by omega)
        omega
      rw [ih ((m + 1) / 10) hdiv]
      show (m + 1) / 10 * 10 + decVal (digitChar ((m + 1) % 10)) = m + 1
      have h10 : (m + 1) % 10 < 10 := Nat.mod_lt _ (by omega)
      rw [decVal_digitChar _ h10]
      omega

theorem parseDec_natDec (n : Nat) : parseDec (natDec n) = n := by
  unfold natDec
  by_cases h : n = 0
  · simp [h, parseDec, decVal]
  · simp only [h, if_false]
    exact parseDec_natDecGo n n (Nat.le_refl n)

theorem natDec_injective : Function.Injective natDec := by
  intro a b h
  have := parseDec_natDec a
  rw [h, parseDec_natDec] at this
  omega

theorem natDec_ne_nil (n : Nat) : natDec n ≠ [] := by
  unfold natDec
  by_cases h : n = 0
  · simp [h]
  · simp only [h, if_false]
    match m : n with
    | 0 => omega
    | k + 1 =>
      match k with
      | 0 => simp [natDecGo]
      | j + 1 =>
        rw [natDecGo, natDecGo_append]
        simp

theorem natDecGo_digits (fuel : Nat) :
    ∀ n : Nat, ∀ c ∈ natDecGo fuel n [], isDigitC c = true := by
  induction fuel with
  | zero => intro n c hc; simp [natDecGo] at hc
  | succ f ih =>
    intro n c hc
    match n with
    | 0 => simp [natDecGo] at hc
    | m + 1 =>
      rw [natDecGo, natDecGo_append] at hc
      rcases List.mem_append.mp hc with h | h
      · exact ih ((m + 1) / 10) c h
      · have hc' : c = digitChar ((m + 1) % 10) := by simpa using h
        subst hc'
        exact isDigitC_digitChar _ (Nat.mod_lt _ (by omega))

theorem natDec_digits (n : Nat) : ∀ c ∈ natDec n, isDigitC c = true := by
  unfold natDec
  by_cases h : n = 0
  · simp [h, isDigitC]
  · simp only [h, if_false]
    exact natDecGo_digits n n

/-! ## Association lists with JS `Map` semantics

`Map.set` replaces the value in place when the key exists, otherwise
appends; iteration order is insertion order. -/

/-- JS `Map.prototype.set`. -/
def mapSet {α β : Type} [DecidableEq α] : List (α × β) → α → β → List (α × β)
  | [], k, v => [(k, v)]
  | (k0, v0) :: rest, k, v =>
    if k0 = k then (k, v) :: rest else (k0, v0) :: mapSet rest k v

/-- JS `Map.prototype.get` (first, and only, binding of the key). -/
def lookupA {α β : Type} [DecidableEq α] : List (α × β) → α → Option β
  | [], _ => none
  | (k0, v0) :: rest, k => if k0 = k then some v0 else lookupA rest k

/-- JS `Map.prototype.has`. -/
def hasKey {α β : Type} [DecidableEq α] (m : List (α × β)) (k : α) : Bool :=
  (lookupA m k).isSome

theorem lookupA_mapSet_same {α β : Type} [DecidableEq α]
    (m : List (α × β)) (k : α) (v : β) : lookupA (mapSet m k v) k = some v := by
  induction m with
  | nil => simp [mapSet, lookupA]
  | cons hd tl ih =>
    obtain ⟨k0, v0⟩ := hd
    by_cases h : k0 = k
    · simp [mapSet, h, lookupA]
    · simp [mapSet, h, lookupA, ih]

theorem lookupA_mapSet_other {α β : Type} [DecidableEq α]
    (m : List (α × β)) (k k' : α) (v : β) (h : k' ≠ k) :
    lookupA (mapSet m k v) k' = lookupA m k' := by
  have h' : ¬k = k' := fun hh => h hh.symm
  induction m with
  | nil => simp [mapSet, lookupA, h']
  | cons hd tl ih =>
    obtain ⟨k0, v0⟩ := hd
    by_cases hk : k0 = k
    · subst hk
      simp [mapSet, lookupA, h']
    · simp only [mapSet, hk, if_false, lookupA]
      by_cases hk' : k0 = k'
      · simp [hk']
      · simp [hk', ih]

/-! ## Collision Resolver (`buildRemapTable`, source lines 179–205)

Per cell id: the regex `^([0-9a-f]{8})-(\d+)$` is tried; on a match the
page offset is added to the existing numeric suffix, otherwise `-offset`
is appended.  The designated loader cell `bf5e5f37` is excluded. -/

/-- The anchored suffix regex `^([0-9a-f]{8})-(\d+)$` of the source:
returns the 8-hex stem and the decimal value of the suffix. -/
def suffixMatch (id : List Char) : Option (List Char × Nat) :=
  if (id.take 8).length = 8 ∧ (id.take 8).all isLowerHex = true then
    match id.drop 8 with
    | '-' :: ds =>
      if ds ≠ [] ∧ ds.all isDigitC = true then some (id.take 8, parseDec ds)
      else none
    | _ => none
  else none

/-- The per-id remap rule of `buildRemapTable`. -/
def remapId (offset : Nat) (id : List Char) : List Char :=
  match suffixMatch id with
  | some (stem, n) => stem ++ '-' :: natDec (n + offset)
  | none => id ++ '-' :: natDec offset

/-- An id made of an 8-hex stem and an optional numeric variant suffix
(the id shape `8 hex chars` or `8 hex chars-N` of the data model). -/
def renderId (stem : List Char) : Option Nat → List Char
  | none => stem
  | some n => stem ++ '-' :: natDec n

/-- The designated data-loader cell id dropped from non-canonical pages. -/
def bf5e5f37 : List Char := "bf5e5f37".toList

/-- `buildRemapTable` (source lines 181–203), applied to the ids of the
page's parsed define blocks (`null` ids are skipped). -/
def buildRemapTable (offset : Nat) (ids : List (Option (List Char))) :
    List (List Char × List Char) :=
  if offset = 0 then [] else
  ids.foldl
    (fun acc oid =>
      match oid with
      | none => acc
      | some id =>
        if id = bf5e5f37 then acc else mapSet acc id (remapId offset id))
    []

theorem suffixMatch_stem (stem : List Char) (h8 : stem.length = 8) :
    suffixMatch stem = none := by
  have hdrop : stem.drop 8 = [] := by
    apply List.drop_eq_nil_of_le
    omega
  unfold suffixMatch
  rw [hdrop]
  by_cases hh : (stem.take 8).length = 8 ∧ (stem.take 8).all isLowerHex = true
  · simp [hh]
  · simp [hh]

theorem suffixMatch_suffixed (stem : List Char) (n : Nat)
    (h8 : stem.length = 8) (hhex : stem.all isLowerHex = true) :
    suffixMatch (stem ++ '-' :: natDec n) = some (stem, n) := by
  have htake : (stem ++ '-' :: natDec n).take 8 = stem := by
    rw [← h8]
    exact List.take_left stem _
  have hdrop : (stem ++ '-' :: natDec n).drop 8 = '-' :: natDec n := by
    rw [← h8]
    exact List.drop_left stem _
  unfold suffixMatch
  rw [htake, hdrop]
  simp only [h8, hhex, and_self, if_true]
  have hne : natDec n ≠ [] := natDec_ne_nil n
  have hd : (natDec n).all isDigitC = true := by
    rw [List.all_eq_true]
    intro c hc
    exact natDec_digits n c hc
  simp only [ne_eq, hne, not_false_eq_true, hd, and_self, if_true,
    parseDec_natDec]

theorem remapId_bare (off : Nat) (stem : List Char) (h8 : stem.length = 8) :
    remapId off stem = stem ++ '-' :: natDec off := by
  unfold remapId
  rw [suffixMatch_stem stem h8]

theorem remapId_suffixed (off : Nat) (stem : List Char) (n : Nat)
    (h8 : stem.length = 8) (hhex : stem.all isLowerHex = true) :
    remapId off (stem ++ '-' :: natDec n) = stem ++ '-' :: natDec (n + off) := by
  unfold remapId
  rw [suffixMatch_suffixed stem n h8 hhex]

/-- Every non-loader id of the page is remapped by exactly the
`remapId` rule (the table binds it to `remapId offset id`). -/
theorem buildRemapTable_lookup (off : Nat) (ids : List (Option (List Char)))
    (id : List Char) (hoff : off ≠ 0) (hmem : some id ∈ ids)
    (hbf : id ≠ bf5e5f37) :
    lookupA (buildRemapTable off ids) id = some (remapId off id) := by
  unfold buildRemapTable
  simp only [hoff, if_false]
  suffices h : ∀ acc : List (List Char × List Char),
      (lookupA acc id = some (remapId off id) ∨ some id ∈ ids) →
      lookupA
        (ids.foldl
          (fun acc oid =>
            match oid with
            | none => acc
            | some i =>
              if i = bf5e5f37 then acc else mapSet acc i (remapId off i))
          acc) id = some (remapId off id) by
    exact h [] (Or.inr hmem)
  clear hmem
  induction ids with
  | nil =>
    intro acc hacc
    rcases hacc with h | h
    · simpa using h
    · simp at h
  | cons hd tl ih =>
    intro acc hacc
    simp only [List.foldl_cons]
    rcases hacc with h | h
    · apply ih
      left
      cases hd with
      | none => simpa using h
      | some i =>
        by_cases hi : i = bf5e5f37
        · simpa [hi] using h
        · simp only [hi, if_false]
          by_cases hii : i = id
          · subst hii
            simp [lookupA_mapSet_same]
          · rw [lookupA_mapSet_other _ _ _ _ (fun hh => hii hh.symm)]
            exact h
    · rcases List.mem_cons.mp h with h1 | h1
      · apply ih
        left
        rw [← h1]
        simp only [hbf, if_false]
        exact lookupA_mapSet_same _ _ _
      · exact ih _ (Or.inr h1)

/-! ## Cell-Graph Extractor: `parseDefineBlocks` (source lines 134–165)

`define({` blocks are found by `indexOf`; the object argument is
delimited by brace-depth counting starting at the `{` right after
`define(`; the block ends at the first `");"` found at or after the
zero-depth closing brace.  If no marker, or no `");"`, remains, the loop
exits and the blocks collected so far are returned. -/

/-- Strip a literal token from the head of a string. -/
def stripTok : List Char → List Char → Option (List Char)
  | [], s => some s
  | _ :: _, [] => none
  | p :: ps, c :: cs => if p = c then stripTok ps cs else none

/-- JS `\s` for the whitespace that occurs in the generated scripts. -/
def isWs (c : Char) : Bool := c = ' ' || c = '\n' || c = '\t' || c = '\r'

/-- The cell-start token `define({`. -/
def defineTok : List Char := "define(\x7b".toList

/-- The statement terminator `);` searched for after the object. -/
def closeTok : List Char := ");".toList

/-- The brace-depth scan of the source (`for` loop, lines 146–152):
starting at index `i` (the `{` after `define(`), depth is incremented on
`{`, decremented on `}`, and the index of the brace closing the group is
returned; if depth never returns to zero the scan runs to `s.length`.
(The scan is entered at a `{`, so depth stays positive until the final
closing brace, matching the JS signed counter.) -/
def braceScanGo (s : List Char) : Nat → Nat → Nat → Nat
  | 0, i, _ => i
  | fuel + 1, i, depth =>
    if h : i < s.length then
      if s.get ⟨i, h⟩ = '\x7b' then braceScanGo s fuel (i + 1) (depth + 1)
      else if s.get ⟨i, h⟩ = '\x7d' then
        if depth = 1 then i else braceScanGo s fuel (i + 1) (depth - 1)
      else braceScanGo s fuel (i + 1) depth
    else i

def braceScan (s : List Char) (i depth : Nat) : Nat :=
  braceScanGo s (s.length + 1 - i) i depth

/-- First match of the cell-id regex `id:\s*"([^"]+)"` at the head. -/
def idFieldAt (s : List Char) : Option (List Char) :=
  match stripTok ("id:".toList) s with
  | none => none
  | some r1 =>
    match r1.dropWhile isWs with
    | '"' :: r3 =>
      let g := r3.takeWhile (fun c => c ≠ '"')
      if g = [] then none
      else
        match r3.dropWhile (fun c => c ≠ '"') with
        | '"' :: _ => some g
        | _ => none
    | _ => none

/-- First match of `id:\s*"([^"]+)"` anywhere in the block (JS
`block.match`). -/
def findIdField : List Char → Option (List Char)
  | [] => none
  | c :: rest =>
    match idFieldAt (c :: rest) with
    | some g => some g
    | none => findIdField rest

/-- The `while (true)` loop of `parseDefineBlocks`; `fuel` dominates the
number of iterations (each successful iteration advances `searchStart`
by at least 9). -/
def parseGo (s : List Char) :
    Nat → Nat → List (Option (List Char) × List Char) →
      List (Option (List Char) × List Char)
  | 0, _, acc => acc.reverse
  | fuel + 1, searchStart, acc =>
    match findSubFrom s defineTok searchStart with
    | none => acc.reverse
    | some idx =>
      match findSubFrom s closeTok (braceScan s (idx + 7) 0) with
      | none => acc.reverse
      | some e =>
        let block := (s.drop idx).take (e + 2 - idx)
        parseGo s fuel (e + 2) ((findIdField block, block) :: acc)

/-- `parseDefineBlocks` (source lines 134–165): the list of
`(cell id, block text)` pairs, in document order. -/
def parseDefineBlocks (s : List Char) : List (Option (List Char) × List Char) :=
  parseGo s (s.length + 1) 0 []

/-! ## Cell-Graph Extractor: `parseRegisterFiles` (source lines 122–132)

The global regex `registerFile\("([^"]+)",\s*(\{[^}]+\})\);` is run over
the script; first declaration of each name wins.  Note the metadata
group `\{[^}]+\}` stops at the first `}`. -/

/-- One attempted match of the registerFile regex at the head of `s`:
returns `(name, full match text, rest of the string after the match)`.
The greedy classes `[^"]+` and `[^}]+` cannot backtrack usefully (any
shorter run would put a non-quote (resp. non-brace) character where the
closing quote (resp. brace) is required), so maximal-run scanning is
exact. -/
def matchRegisterAt (s : List Char) : Option (List Char × List Char × List Char) :=
  match stripTok ("registerFile(\"".toList) s with
  | none => none
  | some r1 =>
    if r1.takeWhile (fun c => c ≠ '"') = [] then none
    else
      match stripTok ("\",".toList) (r1.dropWhile (fun c => c ≠ '"')) with
      | none => none
      | some r2 =>
        match stripTok ("\x7b".toList) (r2.dropWhile isWs) with
        | none => none
        | some r4 =>
          if r4.takeWhile (fun c => c ≠ '\x7d') = [] then none
          else
            match stripTok ("\x7d);".toList) (r4.dropWhile (fun c => c ≠ '\x7d')) with
            | none => none
            | some r5 =>
              some (r1.takeWhile (fun c => c ≠ '"'),
                s.take (s.length - r5.length), r5)

theorem stripTok_length (p : List Char) :
    ∀ s r : List Char, stripTok p s = some r → r.length + p.length = s.length := by
  induction p with
  | nil =>
    intro s r h
    simp [stripTok] at h
    simp [h]
  | cons c cs ih =>
    intro s r h
    match s with
    | [] => simp [stripTok] at h
    | d :: ds =>
      unfold stripTok at h
      by_cases hd : c = d
      · simp only [hd, if_true] at h
        have := ih ds r h
        simp only [List.length_cons]
        omega
      · simp [hd] at h

theorem dropWhile_length_le {α : Type} (p : α → Bool) (l : List α) :
    (l.dropWhile p).length ≤ l.length := by
  induction l with
  | nil => simp [List.dropWhile]
  | cons c cs ih =>
    rw [List.dropWhile_cons]
    by_cases hp : p c = true
    · simp only [hp, if_true]
      simp only [List.length_cons]
      omega
    · simp [hp]

theorem matchRegisterAt_lt (s nm m r : List Char)
    (h : matchRegisterAt s = some (nm, m, r)) : r.length < s.length := by
  unfold matchRegisterAt at h
  cases h1 : stripTok ("registerFile(\"".toList) s with
  | none => rw [h1] at h; exact Option.noConfusion h
  | some r1 =>
    rw [h1] at h
    dsimp only at h
    have hr1 : r1.length + 14 = s.length := stripTok_length _ s r1 h1
    by_cases hnm : r1.takeWhile (fun c => c ≠ '"') = []
    · rw [if_pos hnm] at h
      exact Option.noConfusion h
    · rw [if_neg hnm] at h
      have hd1 : (r1.dropWhile (fun c => c ≠ '"')).length ≤ r1.length :=
        dropWhile_length_le _ _
      cases h2 : stripTok ("\",".toList) (r1.dropWhile (fun c => c ≠ '"')) with
      | none => rw [h2] at h; exact Option.noConfusion h
      | some r2 =>
        rw [h2] at h
        dsimp only at h
        have hr2 : r2.length + 2 = (r1.dropWhile (fun c => c ≠ '"')).length :=
          stripTok_length _ _ r2 h2
        have hd2 : (r2.dropWhile isWs).length ≤ r2.length :=
          dropWhile_length_le _ _
        cases h3 : stripTok ("\x7b".toList) (r2.dropWhile isWs) with
        | none => rw [h3] at h; exact Option.noConfusion h
        | some r4 =>
          rw [h3] at h
          dsimp only at h
          have hr4 : r4.length + 1 = (r2.dropWhile isWs).length :=
            stripTok_length _ _ r4 h3
          by_cases hmd : r4.takeWhile (fun c => c ≠ '\x7d') = []
          · rw [if_pos hmd] at h
            exact Option.noConfusion h
          · rw [if_neg hmd] at h
            have hd3 : (r4.dropWhile (fun c => c ≠ '\x7d')).length ≤ r4.length :=
              dropWhile_length_le _ _
            cases h4 : stripTok ("\x7d);".toList) (r4.dropWhile (fun c => c ≠ '\x7d')) with
            | none => rw [h4] at h; exact Option.noConfusion h
            | some r5 =>
              rw [h4] at h
              dsimp only at h
              have hr5 : r5.length + 3 = (r4.dropWhile (fun c => c ≠ '\x7d')).length :=
                stripTok_length _ _ r5 h4
              simp only [Option.some_inj, Prod.mk.injEq] at h
              have : r5 = r := h.2.2
              subst this
              omega

/-- The `while ((m = re.exec(script)) !== null)` loop of
`parseRegisterFiles`: first declaration of each name wins, insertion
order is kept (JS `Map`). -/
def parseRegisterFilesGo : Nat → List Char →
    List (List Char × List Char) → List (List Char × List Char)
  | 0, _, files => files
  | fuel + 1, s, files =>
    match s with
    | [] => files
    | c :: rest =>
      match matchRegisterAt (c :: rest) with
      | some (nm, m, r5) =>
        parseRegisterFilesGo fuel r5
          (if hasKey files nm then files else files ++ [(nm, m)])
      | none => parseRegisterFilesGo fuel rest files

/-- `parseRegisterFiles` (source lines 122–132).  Every loop iteration
consumes at least one character (`matchRegisterAt_lt`), so
`s.length + 1` fuel covers the whole scan. -/
def parseRegisterFiles (s : List Char) : List (List Char × List Char) :=
  parseRegisterFilesGo (s.length + 1) s []

/-! ## Merge Assembler, step 5: merge registerFile calls (lines 218–229)

All pages' parsed registerFile maps are folded into one map; a name
already present is skipped, so the first declaration in fixed document
order wins, and insertion order (= first-appearance order) is kept. -/

/-- The `if (!allRegisterFiles.has(name)) allRegisterFiles.set(...)` step. -/
def addNew {α β : Type} [DecidableEq α] (acc : List (α × β)) (kv : α × β) :
    List (α × β) :=
  if hasKey acc kv.1 then acc else acc ++ [kv]

/-- Step 5 of the source: fold all pages' registerFile maps together. -/
def mergeRegisterFiles {α β : Type} [DecidableEq α]
    (pages : List (List (α × β))) : List (α × β) :=
  pages.foldl (fun all page => page.foldl addNew all) []

/-- First-wins dedup of a single association list. -/
def firstWins {α β : Type} [DecidableEq α] (l : List (α × β)) : List (α × β) :=
  l.foldl addNew []

theorem mergeRegisterFiles_eq_firstWins {α β : Type} [DecidableEq α]
    (pages : List (List (α × β))) :
    mergeRegisterFiles pages = firstWins pages.flatten := by
  unfold mergeRegisterFiles firstWins
  rw [List.foldl_flatten]

theorem lookupA_append {α β : Type} [DecidableEq α]
    (l1 l2 : List (α × β)) (k : α) :
    lookupA (l1 ++ l2) k =
      match lookupA l1 k with
      | some v => some v
      | none => lookupA l2 k := by
  induction l1 with
  | nil => simp [lookupA]
  | cons hd tl ih =>
    obtain ⟨k0, v0⟩ := hd
    by_cases h : k0 = k
    · simp [lookupA, h]
    · simp [lookupA, h, ih]

theorem lookupA_eq_none_iff {α β : Type} [DecidableEq α]
    (l : List (α × β)) (k : α) :
    lookupA l k = none ↔ k ∉ l.map Prod.fst := by
  induction l with
  | nil => simp [lookupA]
  | cons hd tl ih =>
    obtain ⟨k0, v0⟩ := hd
    by_cases h : k0 = k
    · simp [lookupA, h]
    · simp only [lookupA, h, if_false, List.map_cons, List.mem_cons, ih]
      constructor
      · intro hh
        exact fun hor => hor.elim (fun he => h he.symm) hh
      · intro hh h2
        exact hh (Or.inr h2)

/-- Folding `addNew` never changes the binding of a key already bound,
and binds an unbound key to its first occurrence in the suffix. -/
theorem foldl_addNew_lookup {α β : Type} [DecidableEq α]
    (l : List (α × β)) (acc : List (α × β)) (k : α) :
    lookupA (l.foldl addNew acc) k =
      match lookupA acc k with
      | some v => some v
      | none => lookupA l k := by
  induction l generalizing acc with
  | nil => cases h : lookupA acc k <;> simp [lookupA, h]
  | cons hd tl ih =>
    obtain ⟨k0, v0⟩ := hd
    simp only [List.foldl_cons]
    rw [ih]
    unfold addNew hasKey
    by_cases hin : (lookupA acc k0).isSome
    · rw [if_pos hin]
      cases hacc : lookupA acc k with
      | some v => simp
      | none =>
        simp only [lookupA]
        by_cases hk : k0 = k
        · subst hk
          rw [hacc] at hin
          simp at hin
        · simp [hk]
    · rw [if_neg hin]
      rw [lookupA_append]
      cases hacc : lookupA acc k with
      | some v => simp
      | none =>
        simp only [lookupA]
        by_cases hk : k0 = k
        · simp [hk]
        · simp [hk, lookupA]

/-- The merged map gives every name its first declaration. -/
theorem firstWins_lookup {α β : Type} [DecidableEq α]
    (l : List (α × β)) (k : α) : lookupA (firstWins l) k = lookupA l k := by
  unfold firstWins
  rw [foldl_addNew_lookup]
  simp [lookupA]

/-- Folding `addNew` keeps keys duplicate-free. -/
theorem foldl_addNew_nodup {α β : Type} [DecidableEq α]
    (l : List (α × β)) (acc : List (α × β))
    (hacc : (acc.map Prod.fst).Nodup) :
    ((l.foldl addNew acc).map Prod.fst).Nodup := by
  induction l generalizing acc with
  | nil => exact hacc
  | cons hd tl ih =>
    simp only [List.foldl_cons]
    apply ih
    unfold addNew hasKey
    by_cases hin : (lookupA acc hd.1).isSome
    · rw [if_pos hin]
      exact hacc
    · rw [if_neg hin]
      simp only [List.map_append, List.map_cons, List.map_nil]
      rw [List.nodup_append]
      refine ⟨hacc, List.nodup_singleton _, ?_⟩
      intro a ha hb
      simp only [List.mem_singleton] at hb
      subst hb
      rw [Option.not_isSome_iff_eq_none] at hin
      rw [lookupA_eq_none_iff] at hin
      exact hin ha

theorem firstWins_nodup {α β : Type} [DecidableEq α] (l : List (α × β)) :
    ((firstWins l).map Prod.fst).Nodup :=
  foldl_addNew_nodup l [] (by simp)

/-- First-appearance dedup of a list of keys. -/
def dedupFirst {α : Type} [DecidableEq α] (l : List α) : List α :=
  l.foldl (fun a k => if k ∈ a then a else a ++ [k]) []

/-- The merged map lists names in order of first appearance. -/
theorem foldl_addNew_keys {α β : Type} [DecidableEq α]
    (l : List (α × β)) (acc : List (α × β)) :
    (l.foldl addNew acc).map Prod.fst =
      (l.map Prod.fst).foldl (fun a k => if k ∈ a then a else a ++ [k])
        (acc.map Prod.fst) := by
  induction l generalizing acc with
  | nil => simp
  | cons hd tl ih =>
    simp only [List.foldl_cons, List.map_cons]
    rw [ih]
    congr 1
    unfold addNew hasKey
    by_cases hin : (lookupA acc hd.1).isSome
    · have hmm : hd.1 ∈ acc.map Prod.fst := by
        by_contra hmem
        rw [← lookupA_eq_none_iff] at hmem
        rw [hmem] at hin
        simp at hin
      rw [if_pos hin, if_pos hmm]
    · have hmm : hd.1 ∉ acc.map Prod.fst := by
        rw [Option.not_isSome_iff_eq_none] at hin
        rw [lookupA_eq_none_iff] at hin
        exact hin
      rw [if_neg hin, if_neg hmm]
      simp

theorem firstWins_keys {α β : Type} [DecidableEq α] (l : List (α × β)) :
    (firstWins l).map Prod.fst = dedupFirst (l.map Prod.fst) := by
  unfold firstWins dedupFirst
  rw [foldl_addNew_keys]
  simp

/-! ## Generic first-match replacement (JS `String.replace` with a regex)

`f` attempts a match at the head of its argument and returns the length
of the matched text together with the replacement text computed from it
(the source's replacer callbacks). -/

/-- Scan for the leftmost match and substitute its replacement. -/
def replaceMatch (f : List Char → Option (Nat × List Char)) :
    List Char → List Char
  | [] =>
    match f [] with
    | some (_, r) => r
    | none => []
  | c :: rest =>
    match f (c :: rest) with
    | some (n, r) => r ++ (c :: rest).drop n
    | none => c :: replaceMatch f rest

/-- Scan for the leftmost match of a head-matcher, returning its
position and payload. -/
def findMatch {α : Type} (f : List Char → Option α) : List Char → Option (Nat × α)
  | [] => (f []).map (fun a => (0, a))
  | c :: rest =>
    match f (c :: rest) with
    | some a => some (0, a)
    | none => (findMatch f rest).map (fun p => (p.1 + 1, p.2))

/-! ## Cell Patcher: the `f12777a6` patch (source lines 251–274)

Three sequential first-match replacements on the block text:
(1) `outputs:\s*\[([^\]]+)\]` — append `,"name"` unless already present;
(2) `return \{` — unconditionally prepend `const name = orgName("slug");`;
(3) `return \{([^}]+)\}` — append `,name` unless already present. -/

/-- Head match of `outputs:\s*\[([^\]]+)\]`: full match and group. -/
def outputsMatchAt (s : List Char) : Option (List Char × List Char) :=
  match stripTok ("outputs:".toList) s with
  | none => none
  | some r1 =>
    match stripTok ("[".toList) (r1.dropWhile isWs) with
    | none => none
    | some r2 =>
      if r2.takeWhile (fun c => c ≠ ']') = [] then none
      else
        match stripTok ("]".toList) (r2.dropWhile (fun c => c ≠ ']')) with
        | none => none
        | some r3 =>
          some (s.take (s.length - r3.length), r2.takeWhile (fun c => c ≠ ']'))

/-- The replacer of patch step (1). -/
def outputsRepl (s : List Char) : Option (Nat × List Char) :=
  (outputsMatchAt s).map (fun mg =>
    (mg.1.length,
      if hasSub mg.2 ("\"name\"".toList) then mg.1
      else replaceFirst mg.1 ("]".toList) (",\"name\"]".toList)))

/-- Head match of `return \{([^}]+)\}`: full match and group. -/
def returnMatchAt (s : List Char) : Option (List Char × List Char) :=
  match stripTok ("return \x7b".toList) s with
  | none => none
  | some r1 =>
    if r1.takeWhile (fun c => c ≠ '\x7d') = [] then none
    else
      match stripTok ("\x7d".toList) (r1.dropWhile (fun c => c ≠ '\x7d')) with
      | none => none
      | some r3 =>
        some (s.take (s.length - r3.length), r1.takeWhile (fun c => c ≠ '\x7d'))

/-- The replacer of patch step (3). -/
def returnRepl (s : List Char) : Option (Nat × List Char) :=
  (returnMatchAt s).map (fun mg =>
    (mg.1.length,
      if hasSub mg.2 ("name".toList) then mg.1
      else replaceFirst mg.1 ("\x7d".toList) (",name\x7d".toList)))

/-- The inserted `const name = orgName("slug");` line of patch step (2). -/
def constNameLine (slug : List Char) : List Char :=
  "const name = orgName(\"".toList ++ slug ++ "\");\n".toList

/-- The whole `f12777a6` patch (source lines 251–274). -/
def patchF12777a6 (slug block : List Char) : List Char :=
  let b1 := replaceMatch outputsRepl block
  let b2 := replaceFirst b1 ("return \x7b".toList)
    (constNameLine slug ++ "return \x7b".toList)
  replaceMatch returnRepl b2

/-! ## Merge Assembler, step 6: merge define blocks (source lines 236–288) -/

/-- The metadata cell id targeted by the Cell Patcher. -/
def f12777a6 : List Char := "f12777a6".toList

/-- Page offsets `[100, 0, 200]` for index, movement-report (canonical)
and closing-remarks (source line 179). -/
def PAGE_OFFSETS : List Nat := [100, 0, 200]

/-- The `id: "${id}"` text whose first occurrence is rewritten when a
cell is remapped (source lines 279–282). -/
def idField (id : List Char) : List Char :=
  "id: \"".toList ++ id ++ "\"".toList

/-- The body of the step-6 loop for one parsed block: skip the
superseded loader on non-canonical pages, patch `f12777a6` (on any
page whose block carries that id), then rewrite the id binding when the
page's remap table has an entry for it.  Returns `none` when the block
is dropped. -/
def processBlock (slug : List Char) (remap : List (List Char × List Char))
    (pageIdx : Nat) (idb : Option (List Char) × List Char) :
    Option (List Char) :=
  if idb.1 = some bf5e5f37 ∧ pageIdx ≠ 1 then none
  else
    let b := if idb.1 = some f12777a6 then patchF12777a6 slug idb.2 else idb.2
    match idb.1 with
    | none => some b
    | some id =>
      match lookupA remap id with
      | some newId => some (replaceFirst b (idField id) (idField newId))
      | none => some b

/-- Step 6 applied to one page: parse, build the page's remap table
(step 4) and process every block in order. -/
def processPage (slug : List Char) (pageIdx : Nat) (script : List Char) :
    List (List Char) :=
  let defines := parseDefineBlocks script
  let remap := buildRemapTable (PAGE_OFFSETS.getD pageIdx 0) (defines.map Prod.fst)
  defines.filterMap (processBlock slug remap pageIdx)

/-- `allDefineBlocks`: pages in fixed order index, movement, closing. -/
def allDefineBlocks (slug : List Char) (scripts : List (List Char)) :
    List (List Char) :=
  ((scripts.enum.map (fun p => processPage slug p.1 p.2))).flatten

/-! ## The id-level view of step 6 (used by the uniqueness claims)

`step6Ids` projects the step-6 loop to the cell ids it emits: the block
whose parsed id has a remap entry is emitted under the entry's value
(the `id: "old"` → `id: "new"` rewrite), any other block keeps its id,
and the loader cell is dropped on non-canonical pages.  The patch does
not touch the id binding. -/

/-- Ids emitted by step 6 for the page at `pageIdx` whose parsed cell
ids are `ids`. -/
def step6Ids (pageIdx : Nat) (ids : List (List Char)) : List (List Char) :=
  let remap := buildRemapTable (PAGE_OFFSETS.getD pageIdx 0) (ids.map some)
  ids.filterMap (fun id =>
    if id = bf5e5f37 ∧ pageIdx ≠ 1 then none
    else
      match lookupA remap id with
      | some newId => some newId
      | none => some id)

/-- All cell ids of the merged artifact, in emission order. -/
def mergedCellIds (idx mov clo : List (List Char)) : List (List Char) :=
  step6Ids 0 idx ++ step6Ids 1 mov ++ step6Ids 2 clo

/-! ## Uniqueness analysis of the remapped ids -/

/-- Offset arithmetic of `remapId` on the id shape: a bare id gets the
offset itself, a suffixed id gets suffix plus offset. -/
def addOff (off : Nat) : Option Nat → Nat
  | none => off
  | some n => n + off

theorem remapId_renderId (off : Nat) (stem : List Char) (os : Option Nat)
    (h8 : stem.length = 8) (hhex : stem.all isLowerHex = true) :
    remapId off (renderId stem os) = renderId stem (some (addOff off os)) := by
  cases os with
  | none => exact remapId_bare off stem h8
  | some n => exact remapId_suffixed off stem n h8 hhex

theorem natDec_length_pos (n : Nat) : 0 < (natDec n).length :=
  List.length_pos.mpr (natDec_ne_nil n)

theorem renderId_inj (s1 s2 : List Char) (o1 o2 : Option Nat)
    (h1 : s1.length = 8) (h2 : s2.length = 8)
    (h : renderId s1 o1 = renderId s2 o2) : s1 = s2 ∧ o1 = o2 := by
  cases o1 with
  | none =>
    cases o2 with
    | none => exact ⟨h, rfl⟩
    | some n =>
      exfalso
      have hl := congrArg List.length h
      simp only [renderId, List.length_append, List.length_cons] at hl
      have := natDec_length_pos n
      omega
  | some n1 =>
    cases o2 with
    | none =>
      exfalso
      have hl := congrArg List.length h
      simp only [renderId, List.length_append, List.length_cons] at hl
      have := natDec_length_pos n1
      omega
    | some n2 =>
      simp only [renderId] at h
      have := List.append_inj h (h1.trans h2.symm)
      obtain ⟨hs, ht⟩ := this
      refine ⟨hs, ?_⟩
      simp only [List.cons.injEq] at ht
      rw [natDec_injective ht.2]

/-- A well-formed input cell id: an 8-hex stem with an optional variant
suffix between 1 and 99 (below the smallest page offset). -/
def goodId (id : List Char) : Prop :=
  ∃ stem os, stem.length = 8 ∧ stem.all isLowerHex = true ∧
    (∀ n, os = some n → 1 ≤ n ∧ n ≤ 99) ∧ id = renderId stem os

theorem step6Ids_canonical (mov : List (List Char)) : step6Ids 1 mov = mov := by
  unfold step6Ids PAGE_OFFSETS buildRemapTable
  simp [lookupA]

theorem step6Ids_noncanon (p : Nat) (ids : List (List Char))
    (hp1 : p ≠ 1) (hoff : PAGE_OFFSETS.getD p 0 ≠ 0) :
    step6Ids p ids =
      (ids.filter (fun id => id ≠ bf5e5f37)).map
        (remapId (PAGE_OFFSETS.getD p 0)) := by
  unfold step6Ids
  suffices hgen : ∀ l : List (List Char), (∀ id ∈ l, id ∈ ids) →
      l.filterMap (fun id =>
        if id = bf5e5f37 ∧ p ≠ 1 then none
        else
          match lookupA (buildRemapTable (PAGE_OFFSETS.getD p 0) (ids.map some)) id with
          | some newId => some newId
          | none => some id) =
      (l.filter (fun id => id ≠ bf5e5f37)).map
        (remapId (PAGE_OFFSETS.getD p 0)) by
    exact hgen ids (fun _ h => h)
  intro l
  induction l with
  | nil => intro _; simp
  | cons hd tl ih =>
    intro hsub
    have hhd : hd ∈ ids := hsub hd (List.mem_cons_self hd tl)
    have htl : ∀ id ∈ tl, id ∈ ids := fun id h => hsub id (List.mem_cons_of_mem hd h)
    simp only [List.filterMap_cons, List.filter_cons]
    by_cases hbf : hd = bf5e5f37
    · rw [if_pos (⟨hbf, hp1⟩ : hd = bf5e5f37 ∧ p ≠ 1)]
      have hneg : ¬(decide (hd ≠ bf5e5f37) = true) := by simp [hbf]
      rw [if_neg hneg]
      exact ih htl
    · have hcond : ¬(hd = bf5e5f37 ∧ p ≠ 1) := fun hc => hbf hc.1
      rw [if_neg hcond]
      have hlook : lookupA (buildRemapTable (PAGE_OFFSETS.getD p 0) (ids.map some)) hd =
          some (remapId (PAGE_OFFSETS.getD p 0) hd) :=
        buildRemapTable_lookup _ _ _ hoff (List.mem_map_of_mem some hhd) hbf
      rw [hlook]
      have hpos : decide (hd ≠ bf5e5f37) = true := by simp [hbf]
      rw [if_pos hpos]
      simp only [List.map_cons]
      exact congrArg (fun r => remapId (PAGE_OFFSETS.getD p 0) hd :: r) (ih htl)

/-- `bf5e5f37` is itself a well-formed bare id, so dropping it never
hides a collision; filtering preserves the hypotheses. -/
theorem goodId_suffix_range {id : List Char} (h : goodId id) :
    ∃ stem os, stem.length = 8 ∧ stem.all isLowerHex = true ∧
      (∀ n, os = some n → 1 ≤ n ∧ n ≤ 99) ∧ id = renderId stem os := h

/-- The amended uniqueness property: merged cell ids are pairwise
distinct whenever every input id is well formed (8-hex stem, variant
suffix in 1..99) and ids are distinct within each document. -/
theorem mergedCellIds_nodup (idx mov clo : List (List Char))
    (hgi : ∀ id ∈ idx, goodId id) (hgm : ∀ id ∈ mov, goodId id)
    (hgc : ∀ id ∈ clo, goodId id)
    (hni : idx.Nodup) (hnm : mov.Nodup) (hnc : clo.Nodup) :
    (mergedCellIds idx mov clo).Nodup := by
  -- classification of an output id of a non-canonical page
  have class_noncanon : ∀ (off : Nat) (id : List Char), goodId id →
      ∃ stem m, stem.length = 8 ∧ off ≤ m ∧ m ≤ off + 99 ∧
        remapId off id = renderId stem (some m) := by
    intro off id hid
    obtain ⟨stem, os, h8, hhex, hsuf, hrender⟩ := hid
    refine ⟨stem, addOff off os, h8, ?_, ?_, ?_⟩
    · cases os with
      | none => simp [addOff]
      | some n => simp [addOff]
    · cases os with
      | none => simp [addOff]
      | some n =>
        have := hsuf n rfl
        simp only [addOff]
        omega
    · rw [hrender]
      exact remapId_renderId off stem os h8 hhex
  -- injectivity of remap on well-formed ids
  have remap_inj : ∀ (off : Nat) (a b : List Char), goodId a → goodId b →
      remapId off a = remapId off b → a = b := by
    intro off a b ha hb hab
    obtain ⟨s1, o1, h81, hx1, hs1, he1⟩ := ha
    obtain ⟨s2, o2, h82, hx2, hs2, he2⟩ := hb
    rw [he1, he2] at hab ⊢
    rw [remapId_renderId off s1 o1 h81 hx1, remapId_renderId off s2 o2 h82 hx2] at hab
    obtain ⟨hs, ho⟩ := renderId_inj s1 s2 _ _ h81 h82 hab
    subst hs
    congr 1
    simp only [Option.some_inj] at ho
    cases o1 with
    | none =>
      cases o2 with
      | none => rfl
      | some n2 =>
        exfalso
        have := hs2 n2 rfl
        simp [addOff] at ho
        omega
    | some n1 =>
      cases o2 with
      | none =>
        exfalso
        have := hs1 n1 rfl
        simp [addOff] at ho
        omega
      | some n2 =>
        simp only [addOff] at ho
        have : n1 = n2 := by omega
        rw [this]
  -- the three output segments
  rw [mergedCellIds, step6Ids_canonical,
    step6Ids_noncanon 0 idx (by omega) (by decide),
    step6Ids_noncanon 2 clo (by omega) (by decide)]
  simp only [(by decide : PAGE_OFFSETS.getD 0 0 = 100),
    (by decide : PAGE_OFFSETS.getD 2 0 = 200)]
  have hfi : ∀ id ∈ idx.filter (fun id => id ≠ bf5e5f37), goodId id :=
    fun id h => hgi id (List.mem_of_mem_filter h)
  have hfc : ∀ id ∈ clo.filter (fun id => id ≠ bf5e5f37), goodId id :=
    fun id h => hgc id (List.mem_of_mem_filter h)
  have hnfi : (idx.filter (fun id => id ≠ bf5e5f37)).Nodup := hni.filter _
  have hnfc : (clo.filter (fun id => id ≠ bf5e5f37)).Nodup := hnc.filter _
  -- nodup of each mapped segment
  have nodup_seg : ∀ (off : Nat) (l : List (List Char)), (∀ id ∈ l, goodId id) →
      l.Nodup → (l.map (remapId off)).Nodup := by
    intro off l hg hn
    refine List.Nodup.map_on ?_ hn
    intro a ha b hb hab
    exact remap_inj off a b (hg a ha) (hg b hb) hab
  -- range of suffixes in each segment
  have range_seg : ∀ (off : Nat) (l : List (List Char)), (∀ id ∈ l, goodId id) →
      ∀ x ∈ l.map (remapId off), ∃ stem m, stem.length = 8 ∧
        off ≤ m ∧ m ≤ off + 99 ∧ x = renderId stem (some m) := by
    intro off l hg x hx
    obtain ⟨id, hid, hxid⟩ := List.mem_map.mp hx
    obtain ⟨stem, m, h8, hlo, hhi, heq⟩ := class_noncanon off id (hg id hid)
    exact ⟨stem, m, h8, hlo, hhi, hxid ▸ heq⟩
  have range_mov : ∀ x ∈ mov, ∃ stem os, stem.length = 8 ∧
      (∀ n, os = some n → 1 ≤ n ∧ n ≤ 99) ∧ x = renderId stem os := by
    intro x hx
    obtain ⟨stem, os, h8, _, hs, he⟩ := hgm x hx
    exact ⟨stem, os, h8, hs, he⟩
  -- disjointness via the suffix ranges
  have disj_nc_nc : ∀ x, (∃ stem m, stem.length = 8 ∧ 100 ≤ m ∧ m ≤ 199 ∧
        x = renderId stem (some m)) →
      (∃ stem m, stem.length = 8 ∧ 200 ≤ m ∧ m ≤ 299 ∧
        x = renderId stem (some m)) → False := by
    intro x ⟨s1, m1, h81, hlo1, hhi1, he1⟩ ⟨s2, m2, h82, hlo2, hhi2, he2⟩
    rw [he1] at he2
    obtain ⟨_, ho⟩ := renderId_inj s1 s2 _ _ h81 h82 he2
    simp only [Option.some_inj] at ho
    omega
  have disj_mov_nc : ∀ (off : Nat), 100 ≤ off → ∀ x,
      (∃ stem os, stem.length = 8 ∧ (∀ n, os = some n → 1 ≤ n ∧ n ≤ 99) ∧
        x = renderId stem os) →
      (∃ stem m, stem.length = 8 ∧ off ≤ m ∧ m ≤ off + 99 ∧
        x = renderId stem (some m)) → False := by
    intro off hoff x ⟨s1, o1, h81, hs1, he1⟩ ⟨s2, m2, h82, hlo2, hhi2, he2⟩
    rw [he1] at he2
    obtain ⟨_, ho⟩ := renderId_inj s1 s2 _ _ h81 h82 he2
    subst ho
    have := hs1 m2 rfl
    omega
  rw [List.append_assoc, List.nodup_append]
  refine ⟨nodup_seg 100 _ hfi hnfi, ?_, ?_⟩
  · rw [List.nodup_append]
    refine ⟨hnm, nodup_seg 200 _ hfc hnfc, ?_⟩
    intro x hxm hxc
    exact disj_mov_nc 200 (by omega) x (range_mov x hxm)
      (range_seg 200 _ hfc x hxc)
  · intro x hxi hrest
    rcases List.mem_append.mp hrest with hxm | hxc
    · exact disj_mov_nc 100 (by omega) x (range_mov x hxm)
        (range_seg 100 _ hfi x hxi)
    · exact disj_nc_nc x
        (by
          obtain ⟨stem, m, h8, hlo, hhi, he⟩ := range_seg 100 _ hfi x hxi
          exact ⟨stem, m, h8, hlo, by omega, he⟩)
        (by
          obtain ⟨stem, m, h8, hlo, hhi, he⟩ := range_seg 200 _ hfc x hxc
          exact ⟨stem, m, h8, hlo, by omega, he⟩)

/-! ## Structural form of the remap table on duplicate-free ids -/

theorem mapSet_append {α β : Type} [DecidableEq α]
    (m : List (α × β)) (k : α) (v : β) (h : lookupA m k = none) :
    mapSet m k v = m ++ [(k, v)] := by
  induction m with
  | nil => simp [mapSet]
  | cons hd tl ih =>
    obtain ⟨k0, v0⟩ := hd
    unfold lookupA at h
    by_cases hk : k0 = k
    · rw [if_pos hk] at h
      exact Option.noConfusion h
    · rw [if_neg hk] at h
      simp [mapSet, hk, ih h]

theorem buildRemapTable_eq (off : Nat) (ids : List (List Char))
    (hoff : off ≠ 0) (hnd : ids.Nodup) :
    buildRemapTable off (ids.map some) =
      (ids.filter (fun id => id ≠ bf5e5f37)).map
        (fun id => (id, remapId off id)) := by
  unfold buildRemapTable
  rw [if_neg hoff]
  suffices hgen : ∀ (l : List (List Char)) (acc : List (List Char × List Char)),
      l.Nodup → (∀ id ∈ l, lookupA acc id = none) →
      (l.map some).foldl
        (fun acc oid =>
          match oid with
          | none => acc
          | some id =>
            if id = bf5e5f37 then acc else mapSet acc id (remapId off id))
        acc =
      acc ++ (l.filter (fun id => id ≠ bf5e5f37)).map
        (fun id => (id, remapId off id)) by
    have := hgen ids [] hnd (fun id _ => rfl)
    simpa using this
  intro l
  induction l with
  | nil => intro acc _ _; simp
  | cons hd tl ih =>
    intro acc hnd hfresh
    have hndtl : tl.Nodup := hnd.of_cons
    have hhdtl : hd ∉ tl := by
      intro hmem
      exact (List.nodup_cons.mp hnd).1 hmem
    simp only [List.map_cons, List.foldl_cons, List.filter_cons]
    by_cases hbf : hd = bf5e5f37
    · rw [if_pos hbf]
      have hneg : ¬(decide (hd ≠ bf5e5f37) = true) := by simp [hbf]
      rw [if_neg hneg]
      exact ih acc hndtl (fun id h => hfresh id (List.mem_cons_of_mem hd h))
    · rw [if_neg hbf]
      have hpos : decide (hd ≠ bf5e5f37) = true := by simp [hbf]
      rw [if_pos hpos]
      rw [mapSet_append acc hd _ (hfresh hd (List.mem_cons_self hd tl))]
      rw [ih (acc ++ [(hd, remapId off hd)]) hndtl ?fresh]
      · simp
      case fresh =>
        intro id hid
        rw [lookupA_append]
        rw [hfresh id (List.mem_cons_of_mem hd hid)]
        have hne : id ≠ hd := fun he => hhdtl (he ▸ hid)
        have hne2 : ¬hd = id := fun he => hne he.symm
        simp [lookupA, hne2]

/-! ## Merge Assembler, step 8: content markers (source lines 311–318)

`remapHtmlCellIds` iterates the remap table in insertion order and
`replaceAll`s each `<!--:oldId:-->` comment marker.  `remapMarkers` is
the same fold viewed on the list of marker ids of a content tree (a
marker pattern of one id cannot occur inside a marker of another id,
since ids contain no `:`). -/

/-- The `<!--:id:-->` comment marker of a cell. -/
def markerOf (id : List Char) : List Char :=
  "<!--:".toList ++ id ++ ":-->".toList

/-- `remapHtmlCellIds` (source lines 311–318), on the raw content tree. -/
def remapHtmlCellIds (html : List Char)
    (remap : List (List Char × List Char)) : List Char :=
  remap.foldl (fun res kv => replaceAll (markerOf kv.1) (markerOf kv.2) res) html

/-- One marker substitution step. -/
def substMarker (k v m : List Char) : List Char := if m = k then v else m

/-- The action of `remapHtmlCellIds` on the markers of the content tree. -/
def remapMarkers (markers : List (List Char))
    (tbl : List (List Char × List Char)) : List (List Char) :=
  tbl.foldl (fun ms kv => ms.map (substMarker kv.1 kv.2)) markers

theorem remapMarkers_map (markers : List (List Char))
    (tbl : List (List Char × List Char)) :
    remapMarkers markers tbl =
      markers.map (fun m => tbl.foldl (fun x kv => substMarker kv.1 kv.2 x) m) := by
  unfold remapMarkers
  induction tbl generalizing markers with
  | nil => simp
  | cons hd tl ih =>
    simp only [List.foldl_cons]
    rw [ih]
    rw [List.map_map]
    rfl

theorem foldl_subst_not_key (tbl : List (List Char × List Char)) (x : List Char)
    (hx : x ∉ tbl.map Prod.fst) :
    tbl.foldl (fun y kv => substMarker kv.1 kv.2 y) x = x := by
  induction tbl with
  | nil => rfl
  | cons hd tl ih =>
    simp only [List.map_cons, List.mem_cons] at hx
    push_neg at hx
    simp only [List.foldl_cons]
    unfold substMarker
    rw [if_neg hx.1]
    exact ih hx.2

/-- With duplicate-free keys and no table value that is also a key,
the sequential marker fold applies exactly the marker's own entry. -/
theorem foldl_subst_eq_lookup (tbl : List (List Char × List Char)) (m : List Char)
    (hm : m ∈ tbl.map Prod.fst) (hnd : (tbl.map Prod.fst).Nodup)
    (hdisj : ∀ kv ∈ tbl, kv.2 ∉ tbl.map Prod.fst) :
    tbl.foldl (fun x kv => substMarker kv.1 kv.2 x) m = (lookupA tbl m).getD m := by
  induction tbl with
  | nil => simp at hm
  | cons hd tl ih =>
    obtain ⟨k, v⟩ := hd
    simp only [List.foldl_cons]
    by_cases hmk : m = k
    · subst hmk
      rw [show substMarker m v m = v from if_pos rfl]
      have hv : v ∉ tl.map Prod.fst := by
        have := hdisj (m, v) (List.mem_cons_self _ _)
        simp only [List.map_cons, List.mem_cons] at this
        push_neg at this
        exact this.2
      rw [foldl_subst_not_key tl v hv]
      simp [lookupA]
    · rw [show substMarker k v m = m from if_neg hmk]
      have hmtl : m ∈ tl.map Prod.fst := by
        simp only [List.map_cons, List.mem_cons] at hm
        rcases hm with h | h
        · exact absurd h hmk
        · exact h
      have hndtl : (tl.map Prod.fst).Nodup := by
        simp only [List.map_cons] at hnd
        exact hnd.of_cons
      have hdisjtl : ∀ kv ∈ tl, kv.2 ∉ tl.map Prod.fst := by
        intro kv hkv hbad
        have := hdisj kv (List.mem_cons_of_mem _ hkv)
        simp only [List.map_cons, List.mem_cons] at this
        push_neg at this
        exact this.2 hbad
      rw [ih hmtl hndtl hdisjtl]
      have hne : ¬k = m := fun he => hmk he.symm
      simp [lookupA, hne]

/-! ## Extraction of script and main regions (source lines 100–118) -/

/-- JS `String.substring` (swaps its arguments when `a > b`). -/
def jsSubstring (s : List Char) (a b : Nat) : List Char :=
  if a ≤ b then (s.drop a).take (b - a) else (s.drop b).take (a - b)

/-- Head match of `<script\s+type="module">`, returning the length of
the opening tag. -/
def scriptOpenAt (s : List Char) : Option Nat :=
  match stripTok ("<script".toList) s with
  | none => none
  | some r1 =>
    if r1.takeWhile isWs = [] then none
    else
      match stripTok ("type=\"module\">".toList) (r1.dropWhile isWs) with
      | none => none
      | some r2 => some (s.length - r2.length)

/-- `extractScript` (source lines 100–105): the body of the first
module script tag, `""` when there is none. -/
def extractScript (html : List Char) : List Char :=
  match findMatch scriptOpenAt html with
  | none => []
  | some (i, olen) =>
    match findSub ("</script>".toList) (html.drop (i + olen)) with
    | none => []
    | some e => (html.drop (i + olen)).take e

/-- Does a `<script type="module">…</script>` region exist (the step-14
check of the source)? -/
def hasScriptTag (html : List Char) : Bool :=
  match findMatch scriptOpenAt html with
  | none => false
  | some (i, olen) => (findSub ("</script>".toList) (html.drop (i + olen))).isSome

/-- Head match of `<main[^>]*>`, returning the opening-tag length. -/
def mainOpenAt (s : List Char) : Option Nat :=
  match stripTok ("<main".toList) s with
  | none => none
  | some r1 =>
    match stripTok (">".toList) (r1.dropWhile (fun c => c ≠ '>')) with
    | none => none
    | some r2 => some (s.length - r2.length)

/-- `extractMain` (source lines 109–118). -/
def extractMain (html : List Char) : List Char :=
  match findMatch mainOpenAt html, findSub ("</main>".toList) html with
  | some (i, olen), some e => jsSubstring html (i + olen) e
  | _, _ => []

/-! ## Step 8 cleanup transforms (source lines 320–331) -/

/-- Remove every occurrence of `pat`, eating one following newline if
present (the `\n?` of the source regexes), scanning left to right. -/
def removeAllOptNlGo (pat : List Char) : Nat → List Char → List Char
  | 0, s => s
  | fuel + 1, s =>
    match s with
    | [] => []
    | c :: rest =>
      if matchesAt pat (c :: rest) then
        match rest.drop (pat.length - 1) with
        | '\n' :: after2 => removeAllOptNlGo pat fuel after2
        | after => removeAllOptNlGo pat fuel after
      else c :: removeAllOptNlGo pat fuel rest

def removeAllOptNl (pat : List Char) (s : List Char) : List Char :=
  if pat = [] then s else removeAllOptNlGo pat (s.length + 1) s

/-- The placeholder block of the dropped loader cell. -/
def dataCellDiv : List Char :=
  "<div class=\"observablehq observablehq--block\"><!--:bf5e5f37:--></div>".toList

/-- `removeDataCellBlock` (source lines 320–326). -/
def removeDataCellBlock (html : List Char) : List Char :=
  removeAllOptNl dataCellDiv html

/-- The opening of the on-page table of contents. -/
def tocStartTok : List Char := "<aside id=\"observablehq-toc\">".toList

def removeTocGo : Nat → List Char → List Char
  | 0, html => html
  | fuel + 1, html =>
    match html with
    | [] => []
    | c :: rest =>
      if matchesAt tocStartTok (c :: rest) then
        match findSub ("</aside>".toList) (rest.drop (tocStartTok.length - 1)) with
        | none => c :: removeTocGo fuel rest
        | some e =>
          match (rest.drop (tocStartTok.length - 1)).drop (e + 8) with
          | '\n' :: a3 => removeTocGo fuel a3
          | after2 => removeTocGo fuel after2
      else c :: removeTocGo fuel rest

/-- `removeToc` (source lines 328–331): lazily matched regions
`<aside id="observablehq-toc">…</aside>` are removed. -/
def removeToc (html : List Char) : List Char :=
  removeTocGo (html.length + 1) html

/-! ## Step 7: assemble the merged script (source lines 293–305) -/

/-- Split on newlines (JS `String.split("\n")`). -/
def splitLines : List Char → List (List Char)
  | [] => [[]]
  | c :: rest =>
    match splitLines rest with
    | [] => [[c]]
    | l :: ls => if c = '\n' then [] :: l :: ls else (c :: l) :: ls

/-- JS `Array.join("\n")`. -/
def joinNl : List (List Char) → List Char
  | [] => []
  | [x] => x
  | x :: y :: rest => x ++ '\n' :: joinNl (y :: rest)

/-- The import lines of the canonical page's script (source 293–296). -/
def importLinesOf (script : List Char) : List Char :=
  joinNl ((splitLines script).filter (fun l => matchesAt ("import ".toList) l))

/-- `allRegisterFiles` then `mergedScript` (source lines 219–229 and
298–305), given the three extracted scripts in fixed page order. -/
def mergedScriptOfScripts (slug : List Char) (scripts : List (List Char)) :
    List Char :=
  joinNl ([importLinesOf (scripts.getD 1 [])] ++ [[]] ++
    (mergeRegisterFiles (scripts.map parseRegisterFiles)).map Prod.snd ++
    [[]] ++ allDefineBlocks slug scripts ++ [[]])

/-- The remap table of a page, as built in step 4 (source line 205). -/
def remapTableOf (pageIdx : Nat) (html : List Char) :
    List (List Char × List Char) :=
  buildRemapTable (PAGE_OFFSETS.getD pageIdx 0)
    ((parseDefineBlocks (extractScript html)).map Prod.fst)

/-! ## Asset Inliner, step 13 (source lines 432–453)

The regex `"path"\s*:\s*"([^"]+\.json)"` rewrites each matched path
slot of the merged script: a path already carrying a `data:` payload is
left untouched, a readable file is embedded as a base64 data URL, an
unreadable one is left in place with a warning.  `inlineFilePath` is
the per-slot action; a slot is matched at all only when its text ends
in `.json`. -/

/-- The base64 alphabet (node `Buffer.toString("base64")`). -/
def b64Chars : List Char :=
  "ABCDEFGHIJKLMNOPQRSTUVWXYZabcdefghijklmnopqrstuvwxyz0123456789+/".toList

/-- Standard base64 with `=` padding over byte values. -/
def base64Encode : List Nat → List Char
  | [] => []
  | [b1] =>
    [b64Chars.getD (b1 / 4) 'A', b64Chars.getD (b1 % 4 * 16) 'A', '=', '=']
  | [b1, b2] =>
    [b64Chars.getD (b1 / 4) 'A', b64Chars.getD (b1 % 4 * 16 + b2 / 16) 'A',
     b64Chars.getD (b2 % 16 * 4) 'A', '=']
  | b1 :: b2 :: b3 :: rest =>
    b64Chars.getD (b1 / 4) 'A' :: b64Chars.getD (b1 % 4 * 16 + b2 / 16) 'A' ::
    b64Chars.getD (b2 % 16 * 4 + b3 / 64) 'A' :: b64Chars.getD (b3 % 64) 'A' ::
    base64Encode rest

/-- The `data:application/json;base64,…` payload of a resource. -/
def dataUrlOf (bytes : List Nat) : List Char :=
  "data:application/json;base64,".toList ++ base64Encode bytes

/-- `startsWith` (JS `String.startsWith`). -/
def startsWith (s p : List Char) : Bool := matchesAt p s

/-- `endsWith` (the anchored `…\.json` tail of the slot pattern). -/
def endsWith (s suf : List Char) : Bool :=
  s.drop (s.length - suf.length) = suf

/-- The step-13 substitution on one path slot.  `fs` returns the bytes
of a readable local resource and `none` when reading fails (remote or
missing paths). -/
def inlineFilePath (fs : List Char → Option (List Nat)) (p : List Char) :
    List Char :=
  if endsWith p (".json".toList) = false then p
  else if startsWith p ("data:".toList) then p
  else
    match fs p with
    | some bytes => dataUrlOf bytes
    | none => p

/-- Step 13 over all path slots of the script. -/
def inlineFileAttachments (fs : List Char → Option (List Nat))
    (paths : List (List Char)) : List (List Char) :=
  paths.map (inlineFilePath fs)

theorem b64Chars_getD_ne_dot (i : Nat) : b64Chars.getD i 'A' ≠ '.' := by
  have hmem : ∀ c ∈ b64Chars, c ≠ '.' := by decide
  rw [List.getD_eq_getElem?_getD]
  cases h : b64Chars[i]? with
  | none => decide
  | some c =>
    have hc : c ∈ b64Chars := by
      have h2 := List.getElem?_eq_some_iff.mp h
      obtain ⟨hlt, heq⟩ := h2
      exact heq ▸ List.getElem_mem hlt
    simpa using hmem c hc

theorem base64Encode_ne_dot (bs : List Nat) : ∀ c ∈ base64Encode bs, c ≠ '.' := by
  induction bs using base64Encode.induct with
  | case1 => simp [base64Encode]
  | case2 b1 =>
    intro c hc
    simp only [base64Encode, List.mem_cons, List.mem_singleton] at hc
    rcases hc with h | h | h | h
    · subst h; exact b64Chars_getD_ne_dot _
    · subst h; exact b64Chars_getD_ne_dot _
    · subst h; decide
    · simp only [List.not_mem_nil] at h
      rcases h with h | h
      · subst h; decide
      · simp at h
  | case3 b1 b2 =>
    intro c hc
    simp only [base64Encode, List.mem_cons, List.mem_singleton] at hc
    rcases hc with h | h | h | h
    · subst h; exact b64Chars_getD_ne_dot _
    · subst h; exact b64Chars_getD_ne_dot _
    · subst h; exact b64Chars_getD_ne_dot _
    · rcases h with h | h
      · subst h; decide
      · simp at h
  | case4 b1 b2 b3 rest ih =>
    intro c hc
    simp only [base64Encode, List.mem_cons] at hc
    rcases hc with h | h | h | h | h
    · subst h; exact b64Chars_getD_ne_dot _
    · subst h; exact b64Chars_getD_ne_dot _
    · subst h; exact b64Chars_getD_ne_dot _
    · subst h; exact b64Chars_getD_ne_dot _
    · exact ih c h

theorem dataUrlOf_ne_dot (bs : List Nat) : ∀ c ∈ dataUrlOf bs, c ≠ '.' := by
  intro c hc
  unfold dataUrlOf at hc
  rcases List.mem_append.mp hc with h | h
  · intro he
    subst he
    revert h
    decide
  · exact base64Encode_ne_dot bs c h

/-- An embedded payload never ends in `.json`, so a second run of the
inliner never matches it. -/
theorem dataUrlOf_not_json (bs : List Nat) :
    endsWith (dataUrlOf bs) (".json".toList) = false := by
  by_contra h
  rw [Bool.not_eq_false] at h
  unfold endsWith at h
  rw [decide_eq_true_eq] at h
  have hdot : '.' ∈ (dataUrlOf bs).drop ((dataUrlOf bs).length - 5) := by
    rw [show (".json".toList).length = 5 from rfl] at h
    rw [h]
    decide
  have : '.' ∈ dataUrlOf bs := List.mem_of_mem_drop hdot
  exact dataUrlOf_ne_dot bs '.' this rfl

/-- The per-slot inlining substitution is idempotent. -/
theorem inlineFilePath_idem (fs : List Char → Option (List Nat)) (p : List Char) :
    inlineFilePath fs (inlineFilePath fs p) = inlineFilePath fs p := by
  have key : inlineFilePath fs p = p ∨
      ∃ bytes, inlineFilePath fs p = dataUrlOf bytes := by
    unfold inlineFilePath
    by_cases h1 : endsWith p (".json".toList) = false
    · left; rw [if_pos h1]
    · rw [if_neg h1]
      by_cases h2 : startsWith p ("data:".toList) = true
      · left; rw [if_pos h2]
      · rw [if_neg h2]
        cases hf : fs p with
        | some bytes => right; exact ⟨bytes, rfl⟩
        | none => left; rfl
  rcases key with h | ⟨bytes, h⟩
  · rw [h]; exact h
  · rw [h]
    show inlineFilePath fs (dataUrlOf bytes) = dataUrlOf bytes
    unfold inlineFilePath
    rw [if_pos (dataUrlOf_not_json bytes)]

/-! ## Static Linker plugin: `inlineDynamicImportsPlugin` (lines 469–502)

The `onLoad` callback rewrites every `\bimport\(\s*["']([^"']+)["']\s*\)`
of a loaded module: remote specifiers (`http:`/`https:`/`data:`/`blob:`)
are kept, a specifier resolving to a local file becomes a pre-bound
`Promise.resolve(__dyn_i)` with a hoisted static import, and an
unresolvable one becomes `Promise.resolve({})`.  The callback itself
never fails. -/

/-- JS regex word character (for the `\b` before `import(`). -/
def isWordChar (c : Char) : Bool :=
  (48 ≤ c.toNat && c.toNat ≤ 57) || (65 ≤ c.toNat && c.toNat ≤ 90) ||
  (97 ≤ c.toNat && c.toNat ≤ 122) || c = '_'

/-- The remote-specifier test `/^(https?:|data:|blob:)/`. -/
def remoteSpec (sp : List Char) : Bool :=
  matchesAt ("http:".toList) sp || matchesAt ("https:".toList) sp ||
  matchesAt ("data:".toList) sp || matchesAt ("blob:".toList) sp

/-- Head match of the dynamic-import pattern: returns the specifier,
the full matched text and the rest of the string.  `prevWord` says
whether the previous character of the original string is a word
character (the `\b`). -/
def tryDynAt (prevWord : Bool) (s : List Char) :
    Option (List Char × List Char × List Char) :=
  if prevWord then none else
  match stripTok ("import(".toList) s with
  | none => none
  | some r1 =>
    match r1.dropWhile isWs with
    | [] => none
    | q :: r3 =>
      if q = '"' ∨ q = '\'' then
        if r3.takeWhile (fun c => ¬(c = '"' ∨ c = '\'')) = [] then none
        else
          match r3.dropWhile (fun c => ¬(c = '"' ∨ c = '\'')) with
          | [] => none
          | q2 :: r4 =>
            if q2 = '"' ∨ q2 = '\'' then
              match r4.dropWhile isWs with
              | [] => none
              | p :: r5 =>
                if p = ')' then
                  some (r3.takeWhile (fun c => ¬(c = '"' ∨ c = '\'')),
                    s.take (s.length - r5.length), r5)
                else none
            else none
      else none

theorem tryDynAt_lt (pw : Bool) (s sp m r : List Char)
    (h : tryDynAt pw s = some (sp, m, r)) : r.length < s.length := by
  unfold tryDynAt at h
  by_cases hpw : pw = true
  · rw [if_pos hpw] at h
    exact Option.noConfusion h
  · rw [if_neg hpw] at h
    cases h1 : stripTok ("import(".toList) s with
    | none => rw [h1] at h; exact Option.noConfusion h
    | some r1 =>
      rw [h1] at h
      dsimp only at h
      have hr1 : r1.length + 7 = s.length := stripTok_length _ s r1 h1
      have hd1 : (r1.dropWhile isWs).length ≤ r1.length := dropWhile_length_le _ _
      cases h2 : r1.dropWhile isWs with
      | nil => rw [h2] at h; exact Option.noConfusion h
      | cons q r3 =>
        rw [h2] at h
        dsimp only at h
        by_cases hq : q = '"' ∨ q = '\''
        · rw [if_pos hq] at h
          by_cases hsp : r3.takeWhile (fun c => ¬(c = '"' ∨ c = '\'')) = []
          · rw [if_pos hsp] at h
            exact Option.noConfusion h
          · rw [if_neg hsp] at h
            have hd2 : (r3.dropWhile (fun c => ¬(c = '"' ∨ c = '\''))).length ≤ r3.length :=
              dropWhile_length_le _ _
            cases h3 : r3.dropWhile (fun c => ¬(c = '"' ∨ c = '\'')) with
            | nil => rw [h3] at h; exact Option.noConfusion h
            | cons q2 r4 =>
              rw [h3] at h
              dsimp only at h
              by_cases hq2 : q2 = '"' ∨ q2 = '\''
              · rw [if_pos hq2] at h
                have hd3 : (r4.dropWhile isWs).length ≤ r4.length :=
                  dropWhile_length_le _ _
                cases h4 : r4.dropWhile isWs with
                | nil => rw [h4] at h; exact Option.noConfusion h
                | cons p r5 =>
                  rw [h4] at h
                  dsimp only at h
                  by_cases hp : p = ')'
                  · rw [if_pos hp] at h
                    simp only [Option.some_inj, Prod.mk.injEq] at h
                    have hr : r5 = r := h.2.2
                    subst hr
                    have e2 : r3.length + 1 ≤ r1.length := by
                      have := congrArg List.length h2
                      simp only [List.length_cons] at this
                      omega
                    have e3 : r4.length + 1 ≤ r3.length := by
                      have := congrArg List.length h3
                      simp only [List.length_cons] at this
                      omega
                    have e4 : r5.length + 1 ≤ r4.length := by
                      have := congrArg List.length h4
                      simp only [List.length_cons] at this
                      omega
                    omega
                  · rw [if_neg hp] at h
                    exact Option.noConfusion h
              · rw [if_neg hq2] at h
                exact Option.noConfusion h
        · rw [if_neg hq] at h
          exact Option.noConfusion h

/-- The scan of the `contents.replace(regex, fn)` call of the plugin:
returns the rewritten contents and the recorded `(counter, specifier)`
pairs for the resolvable non-remote imports, in match order. -/
def dynScanGo (ex : List Char → Bool) : Nat → List Char → Bool → Nat →
    List Char × List (Nat × List Char)
  | 0, _, _, _ => ([], [])
  | fuel + 1, s, prevW, ctr =>
    match s with
    | [] => ([], [])
    | c :: rest =>
      match tryDynAt prevW (c :: rest) with
      | some (sp, m, r5) =>
        if remoteSpec sp then
          let p := dynScanGo ex fuel r5 false ctr
          (m ++ p.1, p.2)
        else if ex sp then
          let p := dynScanGo ex fuel r5 false (ctr + 1)
          ("Promise.resolve(__dyn_".toList ++ natDec ctr ++ (")".toList) ++ p.1,
            (ctr, sp) :: p.2)
        else
          let p := dynScanGo ex fuel r5 false ctr
          ("Promise.resolve(\x7b\x7d)".toList ++ p.1, p.2)
      | none =>
        let p := dynScanGo ex fuel rest (isWordChar c) ctr
        (c :: p.1, p.2)

/-- One hoisted static import line `import * as __dyn_i from "spec";`
(`JSON.stringify` of a specifier without escapes). -/
def dynImportLine (p : Nat × List Char) : List Char :=
  "import * as __dyn_".toList ++ natDec p.1 ++ " from \"".toList ++ p.2 ++
    "\";".toList

/-- The whole `onLoad` rewrite of the plugin (source lines 472–499):
rewrite the dynamic imports, then hoist the static import lines, if
any, above the contents.  `ex` is `existsSync` after path resolution.
The callback always returns rewritten contents — it has no failure
path. -/
def inlineDynamicImports (ex : List Char → Bool) (contents : List Char) :
    List Char :=
  let p := dynScanGo ex (contents.length + 1) contents false 0
  if p.2 = [] then p.1
  else joinNl (p.2.map dynImportLine) ++ '\n' :: p.1

/-! ## The pipeline (CLI, credential check, reads, link, write)

The imperative top level of the source (lines 36–553) as a pure
function from the CLI arguments, the environment credential, the file
system and the external esbuild call to an exit code and the ordered
file-system events.  The pure string surgery of steps 2–13 is the
functions above; the resource reads of steps 10–13 (CSS, favicon, JSON
payloads) happen strictly between the page reads and the link call and
are non-write accesses, so they are not listed as events. -/

/-- A file-system effect of the bundler process. -/
inductive Ev
  | readF : List Char → Ev
  | writeF : List Char → Ev
deriving DecidableEq

/-- Exit code and ordered events of one bundler invocation. -/
structure RunOut where
  exitCode : Nat
  events : List Ev
deriving DecidableEq

/-- The three required role-named pages, in fixed narrative order
(source line 64). -/
def PAGE_FILES : List (List Char) :=
  [("index.html".toList), ("movement-report.html".toList),
   ("closing-remarks.html".toList)]

/-- `join(inputDir, file)`. -/
def joinPath (dir f : List Char) : List Char := dir ++ '/' :: f

/-- `basename(inputDir)` (the `orgSlug`, source line 60). -/
def basenameOf (p : List Char) : List Char :=
  (p.reverse.takeWhile (fun c => c ≠ '/')).reverse

/-- Is an event a write? -/
def isWriteEv : Ev → Bool
  | Ev.writeF _ => true
  | Ev.readF _ => false

/-- The bundler invocation:
CLI argument check, credential check, page existence check (`existsSync`
is a stat, not a read), page reads, pure merge (steps 2–13), the
step-14 script-presence check, the external esbuild call, and the
single final write (step 17).  Exit code 1 on any failure. -/
def runBundler (inputDir outputPath : Option (List Char))
    (token : Option (List Char)) (fs : List Char → Option (List Char))
    (esbuildRun : List Char → Option (List Char)) : RunOut :=
  match inputDir, outputPath with
  | some dir, some outp =>
    (match token with
     | none => ⟨1, []⟩
     | some _tok =>
       if PAGE_FILES.all (fun f => (fs (joinPath dir f)).isSome) then
         let pages := PAGE_FILES.map (fun f => ((fs (joinPath dir f)).getD []))
         let reads := PAGE_FILES.map (fun f => Ev.readF (joinPath dir f))
         if hasScriptTag (pages.getD 1 []) then
           let merged :=
             mergedScriptOfScripts (basenameOf dir) (pages.map extractScript)
           match esbuildRun merged with
           | none => ⟨1, reads⟩
           | some _bundled => ⟨0, reads ++ [Ev.writeF outp]⟩
         else ⟨1, reads⟩
       else ⟨1, []⟩)
  | _, _ => ⟨1, []⟩

/-! ## Helper lemmas about no-match replacement -/

theorem stripTok_none_of_not_matches (p s : List Char)
    (h : matchesAt p s = false) : stripTok p s = none := by
  induction p generalizing s with
  | nil => simp [matchesAt] at h
  | cons c cs ih =>
    cases s with
    | nil => rfl
    | cons d ds =>
      unfold stripTok
      unfold matchesAt at h
      by_cases hcd : c = d
      · rw [if_pos hcd]
        apply ih
        subst hcd
        simpa using h
      · rw [if_neg hcd]

/-- `replace` with a regex whose match needs the literal token `pat` is
the identity on strings without an occurrence of `pat`. -/
theorem replaceMatch_no_occur (f : List Char → Option (Nat × List Char))
    (pat : List Char) (hf : ∀ s, matchesAt pat s = false → f s = none) :
    ∀ s, hasSub s pat = false → replaceMatch f s = s := by
  intro s
  induction s with
  | nil =>
    intro h
    unfold hasSub findSub at h
    by_cases hm : matchesAt pat [] = true
    · rw [if_pos hm] at h
      simp at h
    · unfold replaceMatch
      rw [hf [] (by simpa using hm)]
  | cons c rest ih =>
    intro h
    unfold hasSub findSub at h
    by_cases hm : matchesAt pat (c :: rest) = true
    · rw [if_pos hm] at h
      simp at h
    · rw [if_neg hm] at h
      have hrest : hasSub rest pat = false := by
        unfold hasSub
        cases hfs : findSub pat rest with
        | none => rfl
        | some k =>
          rw [hfs] at h
          simp at h
      unfold replaceMatch
      rw [hf (c :: rest) (by simpa using hm)]
      rw [ih hrest]

theorem replaceFirst_no_occur (s pat repl : List Char)
    (h : hasSub s pat = false) : replaceFirst s pat repl = s := by
  unfold replaceFirst
  unfold hasSub at h
  cases hfs : findSub pat s with
  | none => rfl
  | some i =>
    rw [hfs] at h
    simp at h

theorem outputsRepl_none (s : List Char)
    (h : matchesAt ("outputs:".toList) s = false) : outputsRepl s = none := by
  unfold outputsRepl outputsMatchAt
  rw [stripTok_none_of_not_matches _ _ h]
  rfl

theorem returnRepl_none (s : List Char)
    (h : matchesAt ("return \x7b".toList) s = false) : returnRepl s = none := by
  unfold returnRepl returnMatchAt
  rw [stripTok_none_of_not_matches _ _ h]
  rfl

/-! ## Helper lemmas for the registerFile matcher family -/

theorem takeWhile_append_all {α : Type} (p : α → Bool) (l1 l2 : List α)
    (h : ∀ c ∈ l1, p c = true) :
    (l1 ++ l2).takeWhile p = l1 ++ l2.takeWhile p := by
  induction l1 with
  | nil => simp
  | cons c cs ih =>
    have hc : p c = true := h c (List.mem_cons_self c cs)
    simp only [List.cons_append, List.takeWhile_cons, hc, if_true]
    rw [ih (fun x hx => h x (List.mem_cons_of_mem c hx))]

theorem dropWhile_append_all {α : Type} (p : α → Bool) (l1 l2 : List α)
    (h : ∀ c ∈ l1, p c = true) :
    (l1 ++ l2).dropWhile p = l2.dropWhile p := by
  induction l1 with
  | nil => simp
  | cons c cs ih =>
    have hc : p c = true := h c (List.mem_cons_self c cs)
    simp only [List.cons_append, List.dropWhile_cons, hc, if_true]
    exact ih (fun x hx => h x (List.mem_cons_of_mem c hx))

theorem lookupA_map_pair (l : List (List Char)) (m : List Char)
    (f : List Char → List Char) (h : m ∈ l) :
    lookupA (l.map (fun id => (id, f id))) m = some (f m) := by
  induction l with
  | nil => simp at h
  | cons hd tl ih =>
    simp only [List.map_cons, lookupA]
    by_cases hh : hd = m
    · rw [if_pos hh, hh]
    · rw [if_neg hh]
      rcases List.mem_cons.mp h with h1 | h1
      · exact absurd h1.symm hh
      · exact ih h1

/-! ## Shape of the pipeline's result -/

/-- Every bundler invocation ends in one of three shapes: an early exit
with no events, a failure after the page reads, or a success whose
single write is the final event. -/
theorem runBundler_shape (inDir outP tok : Option (List Char))
    (fs : List Char → Option (List Char))
    (es : List Char → Option (List Char)) :
    runBundler inDir outP tok fs es = ⟨1, []⟩ ∨
    (∃ dir, inDir = some dir ∧
      runBundler inDir outP tok fs es =
        ⟨1, PAGE_FILES.map (fun f => Ev.readF (joinPath dir f))⟩) ∨
    (∃ dir outp b merged, inDir = some dir ∧ outP = some outp ∧
      es merged = some b ∧
      runBundler inDir outP tok fs es =
        ⟨0, PAGE_FILES.map (fun f => Ev.readF (joinPath dir f)) ++
          [Ev.writeF outp]⟩) := by
  cases inDir with
  | none => left; rfl
  | some dir =>
    cases outP with
    | none => left; rfl
    | some outp =>
      cases tok with
      | none => left; rfl
      | some t =>
        by_cases hex : PAGE_FILES.all (fun f => (fs (joinPath dir f)).isSome)
        · by_cases hst : hasScriptTag
            ((PAGE_FILES.map (fun f => ((fs (joinPath dir f)).getD []))).getD 1 [])
          · cases hes : es (mergedScriptOfScripts (basenameOf dir)
              ((PAGE_FILES.map (fun f => ((fs (joinPath dir f)).getD []))).map
                extractScript)) with
            | none =>
              right; left
              refine ⟨dir, rfl, ?_⟩
              unfold runBundler
              dsimp only
              rw [if_pos hex, if_pos hst, hes]
            | some b =>
              right; right
              refine ⟨dir, outp, b, _, rfl, rfl, hes, ?_⟩
              unfold runBundler
              dsimp only
              rw [if_pos hex, if_pos hst, hes]
          · right; left
            refine ⟨dir, rfl, ?_⟩
            unfold runBundler
            dsimp only
            rw [if_pos hex, if_neg hst]
        · left
          unfold runBundler
          dsimp only
          rw [if_neg hex]

theorem reads_no_write (dir : List Char) :
    ∀ e ∈ PAGE_FILES.map (fun f => Ev.readF (joinPath dir f)),
      isWriteEv e = false := by
  intro e he
  obtain ⟨f, _, hf⟩ := List.mem_map.mp he
  rw [← hf]
  rfl

/-! ## Concrete scenario inputs used by the claim theorems -/

/-- Index-page script of the spec's concrete scenario: cells
`a1b2c3d4` and `a1b2c3d4-1`. -/
def c1IdxScript : List Char :=
  "define(\x7bid: \"a1b2c3d4\", outputs: [\"a\"], body: 1\x7d);\ndefine(\x7bid: \"a1b2c3d4-1\", outputs: [\"b\"], body: 2\x7d);".toList

/-- Canonical-page script of the scenario: cell `a1b2c3d4`. -/
def c1MovScript : List Char :=
  "import \"x\";\ndefine(\x7bid: \"a1b2c3d4\", outputs: [\"c\"], body: 3\x7d);".toList

/-- Closing-page script of the scenario. -/
def c1CloScript : List Char :=
  "define(\x7bid: \"deadbe02\", outputs: [\"d\"], body: 4\x7d);".toList

/-- The merged script of the scenario. -/
def c1Merged : List Char :=
  mergedScriptOfScripts ("tfl".toList) [c1IdxScript, c1MovScript, c1CloScript]

/-- Index-page content tree of the scenario, with one marker per cell. -/
def c1IdxMain : List Char :=
  "<div><!--:a1b2c3d4:--></div><div><!--:a1b2c3d4-1:--></div>".toList

/-- The index page's remap table (step 4). -/
def c1IdxTbl : List (List Char × List Char) :=
  buildRemapTable 100 ((parseDefineBlocks c1IdxScript).map Prod.fst)

/-- The index page's content tree after the step-8 transforms. -/
def c1IdxMainOut : List Char :=
  removeDataCellBlock (remapHtmlCellIds c1IdxMain c1IdxTbl)

/-- Page cell ids for the marker-chain counterexample: the remapped id
of `deadbeef` equals the original id `deadbeef-100` of another cell. -/
def c3ids : List (List Char) := [("deadbeef".toList), ("deadbeef-100".toList)]

/-- The remap table built from `c3ids`. -/
def c3tbl : List (List Char × List Char) := buildRemapTable 100 (c3ids.map some)

/-- The content tree holding one marker for each of the two cells. -/
def c3html : List Char :=
  (markerOf ("deadbeef".toList)) ++ (markerOf ("deadbeef-100".toList))

/-- A script whose second cell-start token has an unbalanced brace
group and no statement terminator. -/
def c4Script : List Char :=
  "define(\x7bid: \"aaaaaaaa\", outputs: [], body: 1\x7d);\ndefine(\x7bid: \"bbbbbbbb\", outputs: [], body: (\x7b".toList

/-- The well-formed first block of `c4Script`. -/
def c4GoodBlock : List Char :=
  "define(\x7bid: \"aaaaaaaa\", outputs: [], body: 1\x7d);".toList

/-- A page script declaring the patch target `f12777a6`. -/
def c9Script : List Char :=
  "define(\x7bid: \"f12777a6\", outputs: [\"periodLabel\"], body: () => \x7b\nreturn \x7bperiodLabel: 1\x7d;\n\x7d\x7d);".toList

/-- The `f12777a6` block as emitted by step 6 for page 0 (patched and
then remapped, although page 0 is not the canonical page). -/
def c9Page0Out : List Char :=
  "define(\x7bid: \"f12777a6-100\", outputs: [\"periodLabel\",\"name\"], body: () => \x7b\nconst name = orgName(\"tfl\");\nreturn \x7bperiodLabel: 1,name\x7d;\n\x7d\x7d);".toList

/-- The `f12777a6` block as emitted by step 6 for the canonical page. -/
def c9CanonOut : List Char :=
  "define(\x7bid: \"f12777a6\", outputs: [\"periodLabel\",\"name\"], body: () => \x7b\nconst name = orgName(\"tfl\");\nreturn \x7bperiodLabel: 1,name\x7d;\n\x7d\x7d);".toList

/-- An already-patched copy of the target cell (the `name` output, the
`const name` line and the return-object entry are all present). -/
def c9Patched : List Char := c9CanonOut

/-- The result of patching the already-patched block: the `const name`
line is inserted a second time. -/
def c9DoublePatched : List Char :=
  "define(\x7bid: \"f12777a6\", outputs: [\"periodLabel\",\"name\"], body: () => \x7b\nconst name = orgName(\"tfl\");\nconst name = orgName(\"tfl\");\nreturn \x7bperiodLabel: 1,name\x7d;\n\x7d\x7d);".toList

/-- A loaded module whose deferred import cannot be resolved locally
and is not remote. -/
def c5xJs : List Char := "export const y = import(\"./missing.js\");".toList

/-- The three role-named pages of the dynamic-import scenario. -/
def c5IdxHtml : List Char :=
  "<html><head></head><body><script type=\"module\">define(\x7bid: \"aaaaaab1\", outputs: [], body: 1\x7d);</script><main>m1</main></body></html>".toList

/-- The canonical page of the dynamic-import scenario; its script
imports the local module `./x.js`. -/
def c5MovHtml : List Char :=
  "<html><head></head><body><script type=\"module\">import \"./x.js\";\ndefine(\x7bid: \"aaaaaab2\", outputs: [], body: 2\x7d);</script><main>m2</main></body></html>".toList

/-- The closing page of the dynamic-import scenario. -/
def c5CloHtml : List Char :=
  "<html><head></head><body><script type=\"module\">define(\x7bid: \"aaaaaab3\", outputs: [], body: 3\x7d);</script><main>m3</main></body></html>".toList

/-- The file system of the dynamic-import scenario: the three pages and
the local module exist, `./missing.js` does not. -/
def c5fs : List Char → Option (List Char) :=
  fun p =>
    if p = ("d/index.html".toList) then some c5IdxHtml
    else if p = ("d/movement-report.html".toList) then some c5MovHtml
    else if p = ("d/closing-remarks.html".toList) then some c5CloHtml
    else if p = ("d/x.js".toList) then some c5xJs
    else none

/-- A registration whose metadata is a plain nested object literal. -/
def c10Nested : List Char :=
  "registerFile(\"n\", \x7ba:\x7bb:1\x7d\x7d);".toList

/-- A registration whose nested metadata happens to place `);` right
after its first closing brace. -/
def c10Weird : List Char :=
  "registerFile(\"n\", \x7ba:function()\x7bf(\x7b\x7d);\x7d\x7d);".toList

/-- The truncated text under which the parser records `c10Weird`. -/
def c10WeirdMatch : List Char :=
  "registerFile(\"n\", \x7ba:function()\x7bf(\x7b\x7d);".toList

/-- Scripts for the asset-dedup witness: two pages declaring `n`. -/
def c8ScriptA : List Char :=
  "registerFile(\"n\", \x7ba:1\x7d);\nregisterFile(\"m\", \x7bb:2\x7d);".toList

/-- Second page of the asset-dedup witness. -/
def c8ScriptB : List Char :=
  "registerFile(\"n\", \x7bc:3\x7d);".toList

theorem filter_key_nil {β : Type} (l : List (List Char × β)) (k : List Char)
    (h : k ∉ l.map Prod.fst) : l.filter (fun kv => kv.1 = k) = [] := by
  induction l with
  | nil => rfl
  | cons hd tl ih =>
    simp only [List.map_cons, List.mem_cons] at h
    push_neg at h
    rw [List.filter_cons]
    have hne : ¬hd.1 = k := fun he => h.1 he.symm
    rw [if_neg (by simpa using hne)]
    exact ih h.2

theorem filter_key_one {β : Type} (l : List (List Char × β)) (k : List Char)
    (hnd : (l.map Prod.fst).Nodup) (hk : k ∈ l.map Prod.fst) :
    (l.filter (fun kv => kv.1 = k)).length = 1 := by
  induction l with
  | nil => simp at hk
  | cons hd tl ih =>
    simp only [List.map_cons, List.mem_cons] at hk
    simp only [List.map_cons, List.nodup_cons] at hnd
    rw [List.filter_cons]
    by_cases hh : hd.1 = k
    · rw [if_pos (by simpa using hh)]
      have hnk : k ∉ tl.map Prod.fst := hh ▸ hnd.1
      rw [filter_key_nil tl k hnk]
      rfl
    · rw [if_neg (by simpa using hh)]
      rcases hk with h | h
      · exact absurd h.symm hh
      · exact ih hnd.2 h

/-! ## Claim theorems -/

/-- C1 (confirmed): for every non-loader cell of a non-canonical
document, the Collision Resolver's rule is: an 8-hex id with no numeric
suffix becomes `id-offset`; an id with numeric suffix `N` keeps its
8-hex stem and gets suffix `N+offset`; the page's remap table binds
every such id to exactly that rule.  In particular `a1b2c3d4-1` with
offset 100 maps to `a1b2c3d4-101`, and in the concrete scenario no
delimited occurrence of the bare old id (`id: "a1b2c3d4-1"` in the
merged script, `<!--:a1b2c3d4-1:-->` in the content tree) remains in
the merged output, while the canonical id and the remapped id each
occur exactly once. -/
theorem c1_remap_rule :
    (∀ (off : Nat) (stem : List Char), stem.length = 8 →
      stem.all isLowerHex = true →
      remapId off stem = stem ++ '-' :: natDec off) ∧
    (∀ (off n : Nat) (stem : List Char), stem.length = 8 →
      stem.all isLowerHex = true →
      remapId off (stem ++ '-' :: natDec n) = stem ++ '-' :: natDec (n + off)) ∧
    (∀ (off : Nat) (ids : List (Option (List Char))) (id : List Char),
      off ≠ 0 → some id ∈ ids → id ≠ bf5e5f37 →
      lookupA (buildRemapTable off ids) id = some (remapId off id)) ∧
    remapId 100 ("a1b2c3d4-1".toList) = ("a1b2c3d4-101".toList) ∧
    countOccur c1Merged (idField ("a1b2c3d4-1".toList)) = 0 ∧
    countOccur c1Merged (idField ("a1b2c3d4-101".toList)) = 1 ∧
    countOccur c1Merged (idField ("a1b2c3d4".toList)) = 1 ∧
    countOccur c1IdxMainOut (markerOf ("a1b2c3d4-1".toList)) = 0 ∧
    countOccur c1IdxMainOut (markerOf ("a1b2c3d4-101".toList)) = 1 := by
  refine ⟨?_, ?_, ?_, by decide, by decide, by decide, by decide, by decide,
    by decide⟩
  · intro off stem h8 _
    exact remapId_bare off stem h8
  · intro off n stem h8 hx
    exact remapId_suffixed off stem n h8 hx
  · intro off ids id hoff hmem hbf
    exact buildRemapTable_lookup off ids id hoff hmem hbf

/-- Witness for C1 at concrete inputs. -/
theorem c1_remap_rule_witness :
    remapId 100 ("0123abcd".toList) = ("0123abcd".toList) ++ '-' :: natDec 100 ∧
    remapId 200 (("0123abcd".toList) ++ '-' :: natDec 7) =
      ("0123abcd".toList) ++ '-' :: natDec (7 + 200) ∧
    lookupA (buildRemapTable 100 [some ("0123abcd".toList)])
      ("0123abcd".toList) = some (remapId 100 ("0123abcd".toList)) :=
  ⟨c1_remap_rule.1 100 ("0123abcd".toList) (by decide) (by decide),
   c1_remap_rule.2.1 200 7 ("0123abcd".toList) (by decide) (by decide),
   c1_remap_rule.2.2.1 100 [some ("0123abcd".toList)] ("0123abcd".toList)
     (by decide) (List.mem_singleton_self _) (by decide)⟩

/-- C2 (corrected, counterexample): the claim that all merged cell ids
are pairwise distinct for every input set fails on the engineered
collision the claim itself describes: a canonical id `a1b2c3d4-101`
equals the remap of another document's `a1b2c3d4-1` under offset 100. -/
theorem c2_collision_counterexample :
    ¬ (mergedCellIds [("a1b2c3d4-1".toList)] [("a1b2c3d4-101".toList)] []).Nodup ∧
    mergedCellIds [("a1b2c3d4-1".toList)] [("a1b2c3d4-101".toList)] [] =
      [("a1b2c3d4-101".toList), ("a1b2c3d4-101".toList)] := by
  constructor
  · decide
  · decide

/-- C2 (corrected, amended): merged cell ids are pairwise distinct
provided every input id is well formed (8-lower-hex stem, optional
variant suffix between 1 and 99 — below the page offsets) and ids are
distinct within each document. -/
theorem c2_unique_amended (idx mov clo : List (List Char))
    (hgi : ∀ id ∈ idx, goodId id) (hgm : ∀ id ∈ mov, goodId id)
    (hgc : ∀ id ∈ clo, goodId id)
    (hni : idx.Nodup) (hnm : mov.Nodup) (hnc : clo.Nodup) :
    (mergedCellIds idx mov clo).Nodup :=
  mergedCellIds_nodup idx mov clo hgi hgm hgc hni hnm hnc

/-- Witness for the amended C2 at concrete inputs. -/
theorem c2_unique_amended_witness :
    (mergedCellIds [("aaaaaaa1".toList), (("aaaaaaa2".toList) ++ '-' :: natDec 5)]
      [("aaaaaaa1".toList)] []).Nodup := by
  apply c2_unique_amended
  · intro id hid
    rcases List.mem_cons.mp hid with h | h
    · subst h
      exact ⟨("aaaaaaa1".toList), none, by decide, by decide,
        by intro n hn; exact Option.noConfusion hn, rfl⟩
    · have h2 : id = ("aaaaaaa2".toList) ++ '-' :: natDec 5 := by
        simpa using h
      subst h2
      exact ⟨("aaaaaaa2".toList), some 5, by decide, by decide,
        by intro n hn; injection hn with hv; omega, rfl⟩
  · intro id hid
    have h2 : id = ("aaaaaaa1".toList) := by simpa using hid
    subst h2
    exact ⟨("aaaaaaa1".toList), none, by decide, by decide,
      by intro n hn; exact Option.noConfusion hn, rfl⟩
  · intro id hid
    exact absurd hid (List.not_mem_nil id)
  · decide
  · decide
  · decide

/-- C4 (corrected, counterexample): a cell-start token whose brace
group never returns to depth zero and has no `");"` terminator does not
abort extraction; `parseDefineBlocks` silently returns the blocks
parsed so far and drops the malformed cell.  The conjuncts exhibit the
malformed trailing cell-start (at index 48, with no terminator after
its brace scan) and the silently truncated result. -/
theorem c4_silent_truncation_counterexample :
    findSubFrom c4Script defineTok 48 = some 48 ∧
    findSubFrom c4Script closeTok (braceScan c4Script (48 + 7) 0) = none ∧
    parseDefineBlocks c4Script = [(some ("aaaaaaaa".toList), c4GoodBlock)] := by
  refine ⟨by decide, by decide, by decide⟩

/-- C4 (corrected, amended): when a cell-start token has no matching
zero-depth closure before end-of-input, or no `");"` terminator after
the closure, the parse loop stops silently: the blocks collected so far
are returned, the malformed cell and everything after it are dropped,
and no error of any kind is raised (the parser is a total function into
block lists).  In particular a script whose first cell is malformed
parses to the empty list. -/
theorem c4_truncation_amended :
    (∀ (s : List Char) (fuel searchStart : Nat)
      (acc : List (Option (List Char) × List Char)) (idx : Nat),
      findSubFrom s defineTok searchStart = some idx →
      findSubFrom s closeTok (braceScan s (idx + 7) 0) = none →
      parseGo s (fuel + 1) searchStart acc = acc.reverse) ∧
    (∀ (s : List Char) (idx : Nat),
      findSubFrom s defineTok 0 = some idx →
      findSubFrom s closeTok (braceScan s (idx + 7) 0) = none →
      parseDefineBlocks s = []) := by
  have hA : ∀ (s : List Char) (fuel searchStart : Nat)
      (acc : List (Option (List Char) × List Char)) (idx : Nat),
      findSubFrom s defineTok searchStart = some idx →
      findSubFrom s closeTok (braceScan s (idx + 7) 0) = none →
      parseGo s (fuel + 1) searchStart acc = acc.reverse := by
    intro s fuel searchStart acc idx h1 h2
    simp only [parseGo]
    rw [h1]
    dsimp only
    rw [h2]
  refine ⟨hA, ?_⟩
  intro s idx h1 h2
  unfold parseDefineBlocks
  rw [hA s s.length 0 [] idx h1 h2]
  rfl

/-- Witness for the amended C4: a script that is a bare unterminated
cell-start parses to the empty list. -/
theorem c4_truncation_amended_witness :
    parseDefineBlocks ("define(\x7b".toList) = [] :=
  c4_truncation_amended.2 ("define(\x7b".toList) 0 (by decide) (by decide)

/-- C6 (confirmed): with the credential environment variable unset the
bundler exits nonzero immediately: no input file is read, no output
file is written, and no later stage (extraction, linking) runs, for
every choice of CLI arguments, file system and linker. -/
theorem c6_missing_credential :
    ∀ (inDir outP : Option (List Char))
      (fs : List Char → Option (List Char))
      (es : List Char → Option (List Char)),
      runBundler inDir outP none fs es = ⟨1, []⟩ := by
  intro inDir outP fs es
  cases inDir with
  | none => rfl
  | some d =>
    cases outP with
    | none => rfl
    | some o => rfl

/-- C7 (confirmed): the Asset Inliner leaves a path that already holds
an embedded `data:` payload untouched, leaves a remote URL (whose local
read fails) untouched, and running the substitution a second time over
already-inlined output is byte-identical (an embedded payload never
ends in `.json`, so it is never matched again, and the `data:` guard
protects it regardless). -/
theorem c7_inliner_idempotent (fs : List Char → Option (List Nat))
    (paths : List (List Char)) :
    (∀ p, startsWith p ("data:".toList) = true → inlineFilePath fs p = p) ∧
    (∀ p, startsWith p ("http".toList) = true → fs p = none →
      inlineFilePath fs p = p) ∧
    inlineFileAttachments fs (inlineFileAttachments fs paths) =
      inlineFileAttachments fs paths := by
  refine ⟨?_, ?_, ?_⟩
  · intro p hp
    unfold inlineFilePath
    by_cases h1 : endsWith p (".json".toList) = false
    · rw [if_pos h1]
    · rw [if_neg h1, if_pos hp]
  · intro p _ hfs
    unfold inlineFilePath
    by_cases h1 : endsWith p (".json".toList) = false
    · rw [if_pos h1]
    · rw [if_neg h1]
      by_cases h2 : startsWith p ("data:".toList) = true
      · rw [if_pos h2]
      · rw [if_neg h2, hfs]
  · unfold inlineFileAttachments
    rw [List.map_map]
    apply List.map_congr_left
    intro p _
    exact inlineFilePath_idem fs p

/-- Witness for C7 at concrete inputs. -/
theorem c7_inliner_idempotent_witness :
    inlineFilePath (fun _ => none)
      ("data:application/json;base64,AA".toList) =
      ("data:application/json;base64,AA".toList) ∧
    inlineFilePath (fun _ => none) ("https://x/y.json".toList) =
      ("https://x/y.json".toList) :=
  ⟨(c7_inliner_idempotent (fun _ => none) []).1 _ (by decide),
   (c7_inliner_idempotent (fun _ => none) []).2.1 _ (by decide) rfl⟩

/-- C3 (corrected, counterexample): when a remapped id equals another
cell's original id, the sequential `replaceAll` loop of
`remapHtmlCellIds` applies a second table entry on top of an
already-rewritten marker.  Here the cells `deadbeef` and `deadbeef-100`
get definitions `deadbeef-100` and `deadbeef-200`, but both markers end
up reading `deadbeef-200`: the marker of `deadbeef` was not rewritten
by the same table entry as its cell definition (which reads
`deadbeef-100`, a marker id that no longer occurs at all). -/
theorem c3_marker_chain_counterexample :
    remapHtmlCellIds c3html c3tbl =
      (markerOf ("deadbeef-200".toList)) ++ (markerOf ("deadbeef-200".toList)) ∧
    step6Ids 0 c3ids = [("deadbeef-100".toList), ("deadbeef-200".toList)] ∧
    lookupA c3tbl ("deadbeef".toList) = some ("deadbeef-100".toList) ∧
    countOccur (remapHtmlCellIds c3html c3tbl)
      (markerOf ("deadbeef-100".toList)) = 0 := by
  refine ⟨by decide, by decide, by decide, by decide⟩

/-- C3 (corrected, amended): provided no remapped id equals another
cell's original id in the same document (no table value is a key),
every marker is rewritten by exactly its own cell's table entry, and
every rewritten marker references a cell id that exists among the
page's emitted cell ids. -/
theorem c3_marker_consistency_amended (ids markers : List (List Char))
    (hnd : ids.Nodup)
    (hchain : ∀ id ∈ ids, id ≠ bf5e5f37 → remapId 100 id ∉ ids)
    (hmark : ∀ m ∈ markers, m ∈ ids ∧ m ≠ bf5e5f37) :
    remapMarkers markers (buildRemapTable 100 (ids.map some)) =
      markers.map (fun m =>
        (lookupA (buildRemapTable 100 (ids.map some)) m).getD m) ∧
    ∀ m2 ∈ remapMarkers markers (buildRemapTable 100 (ids.map some)),
      m2 ∈ step6Ids 0 ids := by
  have htbl : buildRemapTable 100 (ids.map some) =
      (ids.filter (fun id => id ≠ bf5e5f37)).map
        (fun id => (id, remapId 100 id)) :=
    buildRemapTable_eq 100 ids (by omega) hnd
  have hcomp : (Prod.fst ∘ fun id : List Char => (id, remapId 100 id)) =
      fun id => id := rfl
  have hkeys : (buildRemapTable 100 (ids.map some)).map Prod.fst =
      ids.filter (fun id => id ≠ bf5e5f37) := by
    rw [htbl, List.map_map, hcomp]
    exact List.map_id' _
  have hknd : ((buildRemapTable 100 (ids.map some)).map Prod.fst).Nodup := by
    rw [hkeys]
    exact hnd.filter _
  have hdisj : ∀ kv ∈ buildRemapTable 100 (ids.map some),
      kv.2 ∉ (buildRemapTable 100 (ids.map some)).map Prod.fst := by
    intro kv hkv hbad
    rw [htbl] at hkv
    obtain ⟨id, hid, hkveq⟩ := List.mem_map.mp hkv
    rw [hkeys] at hbad
    have hidids : id ∈ ids := List.mem_of_mem_filter hid
    have hidbf : id ≠ bf5e5f37 := by
      have := List.of_mem_filter hid
      simpa using this
    have hv : kv.2 = remapId 100 id := by rw [← hkveq]
    rw [hv] at hbad
    exact hchain id hidids hidbf (List.mem_of_mem_filter hbad)
  have hmem : ∀ m ∈ markers, m ∈ (buildRemapTable 100 (ids.map some)).map Prod.fst := by
    intro m hm
    rw [hkeys]
    obtain ⟨h1, h2⟩ := hmark m hm
    rw [List.mem_filter]
    exact ⟨h1, by simpa using h2⟩
  have heq : remapMarkers markers (buildRemapTable 100 (ids.map some)) =
      markers.map (fun m =>
        (lookupA (buildRemapTable 100 (ids.map some)) m).getD m) := by
    rw [remapMarkers_map]
    apply List.map_congr_left
    intro m hm
    exact foldl_subst_eq_lookup _ m (hmem m hm) hknd hdisj
  refine ⟨heq, ?_⟩
  intro m2 hm2
  rw [heq] at hm2
  obtain ⟨m, hm, hme⟩ := List.mem_map.mp hm2
  obtain ⟨h1, h2⟩ := hmark m hm
  have hlook : lookupA (buildRemapTable 100 (ids.map some)) m =
      some (remapId 100 m) := by
    rw [htbl]
    apply lookupA_map_pair
    rw [List.mem_filter]
    exact ⟨h1, by simpa using h2⟩
  rw [hlook] at hme
  rw [step6Ids_noncanon 0 ids (by omega) (by decide)]
  rw [show PAGE_OFFSETS.getD 0 0 = 100 from by decide]
  rw [← hme]
  show remapId 100 m ∈ _
  apply List.mem_map_of_mem
  rw [List.mem_filter]
  exact ⟨h1, by simpa using h2⟩

/-- Witness for the amended C3 at concrete inputs. -/
theorem c3_marker_consistency_amended_witness :
    remapMarkers [("aaaaaaa1".toList)]
      (buildRemapTable 100 [some ("aaaaaaa1".toList), some ("aaaaaaa2".toList)]) =
      [("aaaaaaa1".toList)].map (fun m =>
        (lookupA (buildRemapTable 100
          [some ("aaaaaaa1".toList), some ("aaaaaaa2".toList)]) m).getD m) :=
  (c3_marker_consistency_amended
    [("aaaaaaa1".toList), ("aaaaaaa2".toList)] [("aaaaaaa1".toList)]
    (by decide) (by decide) (by decide)).1

/-- C5 (corrected, counterexample): a deferred import whose specifier
is not remote and does not resolve to a local file does not abort the
bundler.  The plugin rewrites it to `Promise.resolve({})` inside the
loaded module `./x.js` (whose text the scenario file system carries),
the link step then succeeds, and the bundler writes its output and
exits 0 — the input set contains an unresolvable non-remote import, yet
output is written. -/
theorem c5_dynamic_import_counterexample :
    remoteSpec ("./missing.js".toList) = false ∧
    c5fs ("d/missing.js".toList) = none ∧
    c5fs ("d/x.js".toList) = some c5xJs ∧
    inlineDynamicImports (fun _ => false) c5xJs =
      ("export const y = Promise.resolve(\x7b\x7d);".toList) ∧
    runBundler (some ("d".toList)) (some ("out.html".toList))
      (some ("tok".toList)) c5fs (fun _ => some ("ok".toList)) =
      ⟨0, [Ev.readF ("d/index.html".toList),
        Ev.readF ("d/movement-report.html".toList),
        Ev.readF ("d/closing-remarks.html".toList),
        Ev.writeF ("out.html".toList)]⟩ := by
  refine ⟨by decide, by decide, by decide, by decide, by decide⟩

/-- C5 (corrected, amended): when the external link step fails, the
bundler exits nonzero and never writes the output file; in every run
the output file is written at most once, only as the very last event of
a successful run.  However an unresolvable non-remote deferred import
does not by itself fail the link: the plugin's `onLoad` rewrite
replaces it with `Promise.resolve({})` and returns normally. -/
theorem c5_link_failure_amended :
    (∀ (inDir outP tok : Option (List Char))
      (fs es : List Char → Option (List Char)), (∀ s, es s = none) →
      (runBundler inDir outP tok fs es).exitCode = 1 ∧
      ∀ e ∈ (runBundler inDir outP tok fs es).events, isWriteEv e = false) ∧
    (∀ (inDir outP tok : Option (List Char))
      (fs es : List Char → Option (List Char)) (e : Ev),
      e ∈ (runBundler inDir outP tok fs es).events → isWriteEv e = true →
      (runBundler inDir outP tok fs es).exitCode = 0 ∧
      (runBundler inDir outP tok fs es).events.getLast? = some e) ∧
    (∀ (inDir outP tok : Option (List Char))
      (fs es : List Char → Option (List Char)),
      ((runBundler inDir outP tok fs es).events.filter isWriteEv).length ≤ 1) ∧
    inlineDynamicImports (fun _ => false) c5xJs =
      ("export const y = Promise.resolve(\x7b\x7d);".toList) := by
  have hfilter : ∀ dir : List Char,
      (PAGE_FILES.map (fun f => Ev.readF (joinPath dir f))).filter isWriteEv = [] := by
    intro dir
    rw [List.filter_eq_nil]
    intro e he
    rw [reads_no_write dir e he]
    simp
  refine ⟨?_, ?_, ?_, by decide⟩
  · intro inDir outP tok fs es hnone
    rcases runBundler_shape inDir outP tok fs es with h | ⟨d, _, h⟩ |
      ⟨d, o, b, merged, _, _, hes, h⟩
    · rw [h]
      exact ⟨rfl, by intro e he; simp at he⟩
    · rw [h]
      exact ⟨rfl, reads_no_write d⟩
    · rw [hnone merged] at hes
      exact Option.noConfusion hes
  · intro inDir outP tok fs es e hmem hw
    rcases runBundler_shape inDir outP tok fs es with h | ⟨d, _, h⟩ |
      ⟨d, o, b, merged, _, _, hes, h⟩
    · rw [h] at hmem
      simp at hmem
    · rw [h] at hmem
      rw [reads_no_write d e hmem] at hw
      exact Bool.noConfusion hw
    · rw [h] at hmem ⊢
      rcases List.mem_append.mp hmem with h1 | h1
      · rw [reads_no_write d e h1] at hw
        exact Bool.noConfusion hw
      · have he : e = Ev.writeF o := by simpa using h1
        subst he
        exact ⟨rfl, List.getLast?_concat _⟩
  · intro inDir outP tok fs es
    rcases runBundler_shape inDir outP tok fs es with h | ⟨d, _, h⟩ |
      ⟨d, o, b, merged, _, _, hes, h⟩
    · rw [h]
      simp
    · rw [h]
      simp only [hfilter d]
      simp
    · rw [h]
      simp only [List.filter_append, hfilter d]
      simp [isWriteEv]

/-- Witness for the amended C5: a run with a failing linker exits 1. -/
theorem c5_link_failure_amended_witness :
    (runBundler (some ("d".toList)) (some ("out.html".toList))
      (some ("tok".toList)) c5fs (fun _ => none)).exitCode = 1 :=
  (c5_link_failure_amended.1 (some ("d".toList)) (some ("out.html".toList))
    (some ("tok".toList)) c5fs (fun _ => none) (fun _ => rfl)).1

/-- C8 (confirmed): the merged registerFile map has pairwise-distinct
names; each name is bound to its first declaration in fixed document
order (the lookup over the concatenation of the per-page parses); the
merged names appear in order of first appearance; and every declared
name has exactly one declaration in the merged output. -/
theorem c8_asset_dedup (scripts : List (List Char)) :
    ((mergeRegisterFiles (scripts.map parseRegisterFiles)).map Prod.fst).Nodup ∧
    (∀ k : List Char,
      lookupA (mergeRegisterFiles (scripts.map parseRegisterFiles)) k =
        lookupA ((scripts.map parseRegisterFiles).flatten) k) ∧
    (mergeRegisterFiles (scripts.map parseRegisterFiles)).map Prod.fst =
      dedupFirst (((scripts.map parseRegisterFiles).flatten).map Prod.fst) ∧
    (∀ k, k ∈ ((scripts.map parseRegisterFiles).flatten).map Prod.fst →
      ((mergeRegisterFiles (scripts.map parseRegisterFiles)).filter
        (fun kv => kv.1 = k)).length = 1) := by
  rw [mergeRegisterFiles_eq_firstWins]
  refine ⟨firstWins_nodup _, fun k => firstWins_lookup _ k, firstWins_keys _, ?_⟩
  intro k hk
  have h1 : lookupA ((scripts.map parseRegisterFiles).flatten) k ≠ none := by
    intro hnone
    rw [lookupA_eq_none_iff] at hnone
    exact hnone hk
  have h2 : lookupA (firstWins ((scripts.map parseRegisterFiles).flatten)) k ≠ none := by
    rw [firstWins_lookup]
    exact h1
  have hmem : k ∈ (firstWins ((scripts.map parseRegisterFiles).flatten)).map Prod.fst :=
    not_not.mp (fun hmem => h2 ((lookupA_eq_none_iff _ _).mpr hmem))
  exact filter_key_one _ k (firstWins_nodup _) hmem

/-- Witness for C8: two pages both declaring `n` merge to one
declaration for `n`. -/
theorem c8_asset_dedup_witness :
    ((mergeRegisterFiles ([c8ScriptA, c8ScriptB].map parseRegisterFiles)).filter
      (fun kv => kv.1 = ("n".toList))).length = 1 :=
  (c8_asset_dedup [c8ScriptA, c8ScriptB]).2.2.2 ("n".toList) (by decide)

/-- C9 (corrected, counterexample): the patch has no canonical-page
guard — the same cell id on a non-canonical page (here page 0) is
patched too (the `orgName` line appears in its emitted block although
the input had none); and on a cell whose name output is already present
the patch is not a no-op: it inserts the `const name = orgName(...)`
line a second time. -/
theorem c9_patch_counterexample :
    hasSub c9Script ("orgName(".toList) = false ∧
    processPage ("tfl".toList) 0 c9Script = [c9Page0Out] ∧
    hasSub c9Page0Out ("orgName(".toList) = true ∧
    patchF12777a6 ("tfl".toList) c9Patched ≠ c9Patched := by
  refine ⟨by decide, by decide, by decide, by decide⟩

/-- C9 (corrected, amended): the patch is applied to every document's
copy of a cell whose pre-remap id is `f12777a6`, not only the canonical
one; if the block carries neither an `outputs:` list nor a `return {`
statement (in particular when the target cell is absent) the patch is
the identity and never an error; on an already-patched block the
outputs-list and return-object edits are skipped but the `const name`
line is inserted again. -/
theorem c9_patch_amended :
    (∀ slug b : List Char, hasSub b ("outputs:".toList) = false →
      hasSub b ("return \x7b".toList) = false → patchF12777a6 slug b = b) ∧
    processPage ("tfl".toList) 0 c9Script = [c9Page0Out] ∧
    processPage ("tfl".toList) 1 c9Script = [c9CanonOut] ∧
    patchF12777a6 ("tfl".toList) c9Patched = c9DoublePatched := by
  refine ⟨?_, by decide, by decide, by decide⟩
  intro slug b h1 h2
  unfold patchF12777a6
  dsimp only
  rw [replaceMatch_no_occur outputsRepl ("outputs:".toList) outputsRepl_none b h1]
  rw [replaceFirst_no_occur b ("return \x7b".toList) _ h2]
  exact replaceMatch_no_occur returnRepl ("return \x7b".toList) returnRepl_none b h2

/-- Witness for the amended C9: a block without the patterns is left
unchanged. -/
theorem c9_patch_amended_witness :
    patchF12777a6 ("tfl".toList) ("const x = 1;".toList) =
      ("const x = 1;".toList) :=
  c9_patch_amended.1 ("tfl".toList) ("const x = 1;".toList) (by decide) (by decide)

/-- C10 (corrected, counterexample): a registration whose metadata
object literal does contain a `}` before the literal's final `}` can
still be recognized — whenever `);` happens to follow the first `}` —
so it is not absent from the merged asset block; it is recorded (under
truncated call text) and merged. -/
theorem c10_nested_metadata_counterexample :
    parseRegisterFiles c10Weird = [(("n".toList), c10WeirdMatch)] ∧
    (mergeRegisterFiles [parseRegisterFiles c10Weird]).map Prod.fst =
      [("n".toList)] := by
  refine ⟨by decide, by decide⟩

/-- C10 (corrected, amended): the registerFile matcher stops its
metadata group at the first `}` and then requires `);` immediately;
hence a registration whose metadata has an inner `}` that is not
directly followed by `);` — in particular any plain nested object
literal such as `{a:{b:1}}` — is not recognized and is silently absent
from the merged asset block, while one whose first `}` is followed by
`);` is (mis)recognized under truncated text. -/
theorem c10_register_parse_amended :
    (∀ b1 b2 : List Char, '\x7d' ∉ b1 → b1 ≠ [] →
      (∀ c, b2.head? = some c → c ≠ ')') →
      matchRegisterAt (("registerFile(\"n\", \x7b".toList) ++
        (b1 ++ '\x7d' :: (b2 ++ ("\x7d);".toList)))) = none) ∧
    parseRegisterFiles c10Nested = [] ∧
    parseRegisterFiles c10Weird = [(("n".toList), c10WeirdMatch)] := by
  refine ⟨?_, by decide, by decide⟩
  intro b1 b2 hb1 hb1ne hb2
  have hall : ∀ c ∈ b1, (fun c => decide (c ≠ '\x7d')) c = true := by
    intro c hc
    simp only [decide_eq_true_eq, ne_eq]
    intro he
    exact hb1 (he ▸ hc)
  unfold matchRegisterAt
  have e1 : stripTok ("registerFile(\"".toList)
      (("registerFile(\"n\", \x7b".toList) ++
        (b1 ++ '\x7d' :: (b2 ++ ("\x7d);".toList)))) =
      some (("n\", \x7b".toList) ++
        (b1 ++ '\x7d' :: (b2 ++ ("\x7d);".toList)))) := rfl
  rw [e1]
  dsimp only
  have e2 : ((("n\", \x7b".toList) ++
      (b1 ++ '\x7d' :: (b2 ++ ("\x7d);".toList)))).takeWhile
        (fun c => c ≠ '"')) = ['n'] := rfl
  rw [e2]
  rw [if_neg (by decide : ¬(['n'] : List Char) = [])]
  have e3 : ((("n\", \x7b".toList) ++
      (b1 ++ '\x7d' :: (b2 ++ ("\x7d);".toList)))).dropWhile
        (fun c => c ≠ '"')) =
      '"' :: ',' :: ' ' :: '\x7b' ::
        (b1 ++ '\x7d' :: (b2 ++ ("\x7d);".toList))) := rfl
  rw [e3]
  have e4 : stripTok ("\",".toList)
      ('"' :: ',' :: ' ' :: '\x7b' ::
        (b1 ++ '\x7d' :: (b2 ++ ("\x7d);".toList)))) =
      some (' ' :: '\x7b' :: (b1 ++ '\x7d' :: (b2 ++ ("\x7d);".toList)))) := rfl
  rw [e4]
  dsimp only
  have e5 : (' ' :: '\x7b' ::
      (b1 ++ '\x7d' :: (b2 ++ ("\x7d);".toList)))).dropWhile isWs =
      '\x7b' :: (b1 ++ '\x7d' :: (b2 ++ ("\x7d);".toList))) := rfl
  rw [e5]
  have e6 : stripTok ("\x7b".toList)
      ('\x7b' :: (b1 ++ '\x7d' :: (b2 ++ ("\x7d);".toList)))) =
      some (b1 ++ '\x7d' :: (b2 ++ ("\x7d);".toList))) := rfl
  rw [e6]
  dsimp only
  have t2 : (b1 ++ '\x7d' :: (b2 ++ ("\x7d);".toList))).takeWhile
      (fun c => c ≠ '\x7d') = b1 := by
    rw [takeWhile_append_all _ _ _ hall]
    simp [List.takeWhile_cons]
  have t3 : (b1 ++ '\x7d' :: (b2 ++ ("\x7d);".toList))).dropWhile
      (fun c => c ≠ '\x7d') = '\x7d' :: (b2 ++ ("\x7d);".toList)) := by
    rw [dropWhile_append_all _ _ _ hall]
    rw [List.dropWhile_cons]
    simp
  rw [t2, if_neg hb1ne, t3]
  have s4 : stripTok ("\x7d);".toList) ('\x7d' :: (b2 ++ ("\x7d);".toList))) =
      none := by
    cases b2 with
    | nil => rfl
    | cons c b2t =>
      have hc : c ≠ ')' := hb2 c rfl
      show stripTok ('\x7d' :: ')' :: ';' :: []) ('\x7d' :: (c :: b2t ++ ("\x7d);".toList))) = none
      unfold stripTok
      rw [if_pos rfl]
      show stripTok (')' :: ';' :: []) (c :: (b2t ++ ("\x7d);".toList))) = none
      unfold stripTok
      rw [if_neg (fun he => hc he.symm)]
  rw [s4]

/-- Witness for the amended C10: the nested literal `{a:{b:1}}` is not
recognized by the matcher. -/
theorem c10_register_parse_amended_witness :
    matchRegisterAt (("registerFile(\"n\", \x7b".toList) ++
      (("a:\x7bb:1".toList) ++ '\x7d' :: (([] : List Char) ++ ("\x7d);".toList)))) =
      none :=
  c10_register_parse_amended.1 ("a:\x7bb:1".toList) [] (by decide) (by decide)
    (fun c hc => absurd hc (by simp))

end Bundle
